import Mathlib

/-!
Verification of the e-commerce data-cleaning pipeline (`clean_data` in
`data_cleaning.py`) against its natural-language specification.

The record table is embedded shallowly: a table is a set of column-presence
flags plus an ordered list of rows; every row carries one cell per recognized
column (a cell of an absent column is simply never read or written, mirroring
pandas, where an absent column does not exist at all).  Floating-point
amounts are modelled as exact rationals; the pandas 3-standard-deviation
test `|x - mean| <= 3 * std` is embedded as `(x - mean)^2 <= 9 * var`,
which is equivalent over the reals since `std = sqrt var >= 0`.  A missing
value (`NaN`) is the distinguished cell value `Value.missing`; the pandas
rule that every comparison against `NaN` is false is reproduced case by
case.  `pd.Series.std()` uses `ddof = 1`, so for a single value it returns
`NaN`, and the subsequent mask `abs(x - mean) <= 3 * std` is then false for
every row: the embedded outlier filter drops all rows when at most one
amount exists.  The two unguarded column accesses of the source
(`drop_duplicates(subset=['order_id'])` on line 44 and the report's
`df['order_id']` / `df['order_date']` on lines 137-138) raise `KeyError`
when the column is absent, so `clean_data` is embedded as returning
`Except String Table`.
-/

set_option maxRecDepth 8000
set_option linter.unusedVariables false

namespace ECClean

/-- Calendar date as produced by `pd.to_datetime` for `order_date` values. -/
structure Date where
  year : Nat
  month : Nat
  day : Nat
deriving DecidableEq, Repr

/-- One cell of the record table: integer, float (modelled as an exact
rational), string, parsed date, categorical label, or missing (`NaN`). -/
inductive Value where
  | int : Int → Value
  | flt : Rat → Value
  | str : String → Value
  | date : Date → Value
  | cat : String → Value
  | missing : Value
deriving DecidableEq, Repr

/-- Column-presence flags of a table: a stage acts on a column only when its
flag is set, mirroring the `if col in df.columns` guards of the source. -/
structure Cols where
  order_id : Bool
  customer_id : Bool
  order_date : Bool
  total_amount : Bool
  quantity : Bool
  unit_price : Bool
  customer_age : Bool
  customer_email : Bool
  customer_phone : Bool
  product_category : Bool
  customer_gender : Bool
  payment_method : Bool
  order_year : Bool
  order_month : Bool
  order_day : Bool
  order_weekday : Bool
  order_quarter : Bool
  age_group : Bool
  revenue_per_item : Bool
deriving DecidableEq, Repr

/-- A record: one cell per recognized column. -/
structure Row where
  order_id : Value
  customer_id : Value
  order_date : Value
  total_amount : Value
  quantity : Value
  unit_price : Value
  customer_age : Value
  customer_email : Value
  customer_phone : Value
  product_category : Value
  customer_gender : Value
  payment_method : Value
  order_year : Value
  order_month : Value
  order_day : Value
  order_weekday : Value
  order_quarter : Value
  age_group : Value
  revenue_per_item : Value
deriving DecidableEq, Repr

/-- A record table: presence flags plus the ordered list of rows. -/
structure Table where
  cols : Cols
  rows : List Row
deriving DecidableEq, Repr

/-- The all-absent column set. -/
def Cols.empty : Cols :=
  ⟨false, false, false, false, false, false, false, false, false, false,
   false, false, false, false, false, false, false, false, false⟩

/-- A row whose every cell is missing. -/
def Row.blank : Row :=
  ⟨.missing, .missing, .missing, .missing, .missing, .missing, .missing,
   .missing, .missing, .missing, .missing, .missing, .missing, .missing,
   .missing, .missing, .missing, .missing, .missing⟩

/-- A cell that is a string or missing (the shapes the source's
`product_category` policy produces and consumes). -/
def strOrMissing : Value → Bool
  | .str _ => true
  | .missing => true
  | _ => false

/-- `notna`: true for every cell except a missing one. -/
def notMissing : Value → Bool
  | .missing => false
  | _ => true

/-- Numeric view of a cell, as pandas arithmetic sees it: integers and
floats are numbers, everything else (strings, dates, labels, `NaN`) is not. -/
def toRat? : Value → Option Rat
  | .int n => some (n : Rat)
  | .flt q => some q
  | _ => none

/-! ### Python string primitives used by the pipeline -/

/-- Whitespace stripped by Python's `str.strip()`. -/
def isPySpace (c : Char) : Bool :=
  c == ' ' || c == '\t' || c == '\n' || c == '\r' || c == '\x0B' || c == '\x0C'

/-- Leading-whitespace removal. -/
def lstripL (cs : List Char) : List Char := cs.dropWhile isPySpace

/-- Trailing-whitespace removal. -/
def rstripL (cs : List Char) : List Char := (cs.reverse.dropWhile isPySpace).reverse

/-- Python `str.strip()`. -/
def pyStrip (s : String) : String := ⟨rstripL (lstripL s.data)⟩

/-- One character of Python `str.title()`: a letter is uppercased after a
non-letter and lowercased after a letter; other characters pass through. -/
def adjChar (prevAlpha : Bool) (c : Char) : Char :=
  if c.isAlpha then (if prevAlpha then c.toLower else c.toUpper) else c

/-- Worker for `str.title()`: `b` records whether the previous character was
a letter. -/
def titleAux (b : Bool) : List Char → List Char
  | [] => []
  | c :: cs => adjChar b c :: titleAux c.isAlpha cs

/-- Python `str.title()` (over the ASCII letters, as `Char.toUpper` and
`Char.toLower` act only on basic latin, matching the data's ASCII text). -/
def pyTitle (s : String) : String := ⟨titleAux false s.data⟩

/-- Tracks whether the last character of a chunk is a letter: the state
`titleAux` threads across a list split. -/
def endAlpha (b : Bool) : List Char → Bool
  | [] => b
  | c :: cs => endAlpha c.isAlpha cs

/-- The source's phone normalization regex `[^\d]` replaced by the empty
string: keep the digits only. -/
def filterDigits (s : String) : String := ⟨s.data.filter Char.isDigit⟩

/-- Python `str(value)`, as `astype(str)` applies it to a cell; `NaN`
becomes the literal string `nan`. -/
def pyStr : Value → String
  | .int n => toString n
  | .flt q => toString q
  | .str s => s
  | .date d => toString d.year ++ "-" ++ toString d.month ++ "-" ++ toString d.day
  | .cat s => s
  | .missing => "nan"

/-! ### The email regex `^[a-zA-Z0-9._%+-]+@[a-zA-Z0-9.-]+\.[a-zA-Z]{2,}$` -/

/-- Characters allowed in the local part of the email pattern. -/
def isLocalChar (c : Char) : Bool :=
  c.isAlpha || c.isDigit || c == '.' || c == '_' || c == '%' || c == '+' || c == '-'

/-- Characters allowed in the domain part of the email pattern. -/
def isDomChar (c : Char) : Bool :=
  c.isAlpha || c.isDigit || c == '.' || c == '-'

/-- Full-string match of the source's email regex.  Neither character class
contains `@`, so a match splits the string at its first `@`; the trailing
`\.[a-zA-Z]{2,}$` forces the final dot to sit immediately before the maximal
trailing run of letters, which must have length at least two, preceded by a
nonempty domain over `[a-zA-Z0-9.-]`. -/
def isEmailStr (s : String) : Bool :=
  let cs := s.data
  let loc := cs.takeWhile (fun c => c != '@')
  match cs.dropWhile (fun c => c != '@') with
  | '@' :: after =>
    let tld := after.reverse.takeWhile Char.isAlpha
    (match after.reverse.dropWhile Char.isAlpha with
     | '.' :: dom => !dom.isEmpty && dom.all isDomChar
     | _ => false)
    && !loc.isEmpty && loc.all isLocalChar && decide (2 ≤ tld.length)
  | _ => false

/-- `str.match(email_pattern, na=False)` on one cell: a non-string cell
(including a missing one) counts as a non-match. -/
def emailOk : Value → Bool
  | .str s => isEmailStr s
  | _ => false

/-! ### Date parsing and derived date parts -/

/-- Nonempty all-digit string to number, else `none`. -/
def digitsToNat? (s : String) : Option Nat :=
  if s.data ≠ [] ∧ s.data.all Char.isDigit then
    some (s.data.foldl (fun a c => 10 * a + (c.toNat - 48)) 0)
  else none

/-- ISO `YYYY-MM-DD` parse with basic range validation; stands for the
accepting core of `pd.to_datetime(..., errors='coerce')`. -/
def parseISO (s : String) : Option Date :=
  match s.splitOn "-" with
  | [ys, ms, ds] =>
    match digitsToNat? ys, digitsToNat? ms, digitsToNat? ds with
    | some y, some m, some d =>
      if 1 ≤ m ∧ m ≤ 12 ∧ 1 ≤ d ∧ d ≤ 31 then some ⟨y, m, d⟩ else none
    | _, _, _ => none
  | _ => none

/-- `pd.to_datetime(cell, errors='coerce')`: an already-parsed date is kept
unchanged, a string is parsed, anything else coerces to `NaT`. -/
def parseDate : Value → Option Date
  | .date d => some d
  | .str s => parseISO s
  | _ => none

/-- `dt.quarter`. -/
def quarterOf (d : Date) : Nat := (d.month + 2) / 3

/-- `dt.day_name()`, via Zeller's congruence. -/
def dayNameOf (d : Date) : String :=
  let m := if d.month ≤ 2 then d.month + 12 else d.month
  let y := if d.month ≤ 2 then d.year - 1 else d.year
  let k := y % 100
  let j := y / 100
  let h := (d.day + (13 * (m + 1)) / 5 + k + k / 4 + j / 4 + 5 * j) % 7
  ["Saturday", "Sunday", "Monday", "Tuesday", "Wednesday", "Thursday",
   "Friday"].getD h ""

/-! ### Median (for `customer_age` imputation) -/

/-- Insertion into a sorted list of rationals. -/
def insertSorted (x : Rat) : List Rat → List Rat
  | [] => [x]
  | y :: ys => if x ≤ y then x :: y :: ys else y :: insertSorted x ys

/-- Insertion sort. -/
def sortQ : List Rat → List Rat
  | [] => []
  | x :: xs => insertSorted x (sortQ xs)

/-- `pd.Series.median()` over the non-missing numeric values: `none` when no
numeric value exists (then `fillna(median)` is a no-op, as filling with
`NaN` changes nothing). -/
def medianOf (xs : List Rat) : Option Rat :=
  if xs = [] then none
  else
    let s := sortQ xs
    let n := xs.length
    if n % 2 = 1 then some (s.getD (n / 2) 0)
    else some ((s.getD (n / 2 - 1) 0 + s.getD (n / 2) 0) / 2)

/-! ### Stage 1: missing-value handling -/

/-- The numeric `customer_age` values of a row list. -/
def ageValues (rows : List Row) : List Rat :=
  rows.filterMap (fun r => toRat? r.customer_age)

/-- `df['customer_age'].fillna(median)` on one row. -/
def fillAge (m? : Option Rat) (r : Row) : Row :=
  match m? with
  | none => r
  | some m =>
    if r.customer_age = .missing then { r with customer_age := .flt m } else r

/-- `df['product_category'].fillna('Unknown')` on one row. -/
def fillCat (r : Row) : Row :=
  if r.product_category = .missing then
    { r with product_category := .str "Unknown" }
  else r

/-- `dropna(subset=[critical columns that are present])` on one row. -/
def criticalOk (c : Cols) (r : Row) : Bool :=
  (!c.order_id || notMissing r.order_id) &&
  (!c.customer_id || notMissing r.customer_id) &&
  (!c.order_date || notMissing r.order_date) &&
  (!c.total_amount || notMissing r.total_amount)

/-- Stage 1 of `clean_data` (lines 29-39): impute `customer_age` with the
column median, set missing `product_category` to `Unknown`, then drop rows
missing a present critical column. -/
def stage1 (t : Table) : Table :=
  let m? := medianOf (ageValues t.rows)
  let r1 := if t.cols.customer_age then t.rows.map (fillAge m?) else t.rows
  let r2 := if t.cols.product_category then r1.map fillCat else r1
  { t with rows := r2.filter (criticalOk t.cols) }

/-! ### Stage 2: duplicate removal -/

/-- Worker for `drop_duplicates(subset=['order_id'], keep='first')`:
`seen` holds the `order_id` values already kept. -/
def dedupGo (seen : List Value) : List Row → List Row
  | [] => []
  | r :: rs =>
    if r.order_id ∈ seen then dedupGo seen rs
    else r :: dedupGo (r.order_id :: seen) rs

/-- `drop_duplicates(subset=['order_id'], keep='first')` (line 44). -/
def dedupByKey (rows : List Row) : List Row := dedupGo [] rows

/-- Stage 2 of `clean_data`; the source raises `KeyError` here when
`order_id` is absent, handled at the `clean_data` level. -/
def stage2 (t : Table) : Table := { t with rows := dedupByKey t.rows }

/-! ### Stage 3: type normalization -/

/-- `pd.to_datetime(..., errors='coerce')` on one row's `order_date`. -/
def dateRow (r : Row) : Row :=
  { r with order_date := match parseDate r.order_date with
                         | some d => .date d
                         | none => .missing }

/-- Phone normalization on one cell: `astype(str)`, strip the non-digits,
and turn an empty result into `NaN`. -/
def phoneNorm (v : Value) : Value :=
  let s := filterDigits (pyStr v)
  if s = "" then .missing else .str s

/-- Phone normalization on one row. -/
def phoneRow (r : Row) : Row := { r with customer_phone := phoneNorm r.customer_phone }

/-- Stage 3 of `clean_data` (lines 52-64): parse dates and drop failures,
filter on the email regex (`na=False`), normalize phone numbers. -/
def stage3 (t : Table) : Table :=
  let r1 := if t.cols.order_date then
      (t.rows.map dateRow).filter (fun r => notMissing r.order_date)
    else t.rows
  let r2 := if t.cols.customer_email then
      r1.filter (fun r => emailOk r.customer_email)
    else r1
  let r3 := if t.cols.customer_phone then r2.map phoneRow else r2
  { t with rows := r3 }

/-! ### Stage 4: outlier handling -/

/-- `df[col] > 0` on one cell: false for a missing or non-numeric cell. -/
def posVal (v : Value) : Bool :=
  match toRat? v with
  | some q => decide (0 < q)
  | none => false

/-- The three positivity filters of stage 4, each gated on presence. -/
def posRows (c : Cols) (rows : List Row) : List Row :=
  let r1 := if c.quantity then rows.filter (fun r => posVal r.quantity) else rows
  let r2 := if c.unit_price then r1.filter (fun r => posVal r.unit_price) else r1
  if c.total_amount then r2.filter (fun r => posVal r.total_amount) else r2

/-- The numeric `total_amount` values of a row list. -/
def amountsOf (rows : List Row) : List Rat :=
  rows.filterMap (fun r => toRat? r.total_amount)

/-- `mean()` of a list of rationals. -/
def meanQ (xs : List Rat) : Rat := xs.sum / (xs.length : Rat)

/-- `std()^2` with `ddof = 1` (the pandas default). -/
def varQ (xs : List Rat) : Rat :=
  (xs.map (fun x => (x - meanQ xs) ^ 2)).sum / ((xs.length : Rat) - 1)

/-- The mask `abs(x - mean) <= 3 * std` on one row, squared to stay in the
rationals; false for a non-numeric cell. -/
def outlierKeep (xs : List Rat) (r : Row) : Bool :=
  match toRat? r.total_amount with
  | some x => decide ((x - meanQ xs) ^ 2 ≤ 9 * varQ xs)
  | none => false

/-- The 3-standard-deviation filter (lines 80-82).  With at most one numeric
amount, `std()` is `NaN` (`ddof = 1`) and the mask is everywhere false, so
every row is dropped. -/
def outlierFilter (rows : List Row) : List Row :=
  let xs := amountsOf rows
  if xs.length ≤ 1 then [] else rows.filter (outlierKeep xs)

/-- Stage 4 of `clean_data` (lines 69-82): positivity filters, then the
3-standard-deviation filter when `total_amount` is present. -/
def stage4 (t : Table) : Table :=
  { t with rows := if t.cols.total_amount then outlierFilter (posRows t.cols t.rows)
                   else posRows t.cols t.rows }

/-! ### Stage 5: categorical standardization -/

/-- `.str.title().str.strip()` on one cell: a non-string cell (missing
included) becomes `NaN` under the `.str` accessor. -/
def titleStripV : Value → Value
  | .str s => .str (pyStrip (pyTitle s))
  | _ => .missing

/-- `.map(gender_mapping).fillna('Unknown')` on one cell.  The mapping keys
are exactly the eight source tokens; every other value, `Male` and `Female`
themselves included, maps to `Unknown`. -/
def genderV : Value → Value
  | .str s =>
    if s = "M" ∨ s = "m" ∨ s = "male" ∨ s = "MALE" then .str "Male"
    else if s = "F" ∨ s = "f" ∨ s = "female" ∨ s = "FEMALE" then .str "Female"
    else .str "Unknown"
  | _ => .str "Unknown"

/-- Category standardization on one row. -/
def catRow (r : Row) : Row :=
  { r with product_category := titleStripV r.product_category }

/-- Gender standardization on one row. -/
def genderRow (r : Row) : Row :=
  { r with customer_gender := genderV r.customer_gender }

/-- Payment-method standardization on one row. -/
def payRow (r : Row) : Row :=
  { r with payment_method := titleStripV r.payment_method }

/-- Stage 5 of `clean_data` (lines 88-101). -/
def stage5 (t : Table) : Table :=
  let r1 := if t.cols.product_category then t.rows.map catRow else t.rows
  let r2 := if t.cols.customer_gender then r1.map genderRow else r1
  let r3 := if t.cols.payment_method then r2.map payRow else r2
  { t with rows := r3 }

/-! ### Stage 6: derived columns -/

/-- The five `dt` accessors on one row; the fallback arm mirrors the `NaN`
the accessors yield on a non-date cell. -/
def datePartsRow (r : Row) : Row :=
  match r.order_date with
  | .date d =>
    { r with order_year := .int (d.year : Int), order_month := .int (d.month : Int),
             order_day := .int (d.day : Int), order_weekday := .str (dayNameOf d),
             order_quarter := .int (quarterOf d : Int) }
  | _ =>
    { r with order_year := .missing, order_month := .missing, order_day := .missing,
             order_weekday := .missing, order_quarter := .missing }

/-- `pd.cut(age, bins=[0,25,35,50,65,100], labels=[...])` on one cell: the
default `right=True` makes every bin left-open and right-closed, so 0 itself
and everything above 100 fall outside and yield a missing label. -/
def ageGroupV (v : Value) : Value :=
  match toRat? v with
  | some q =>
    if 0 < q ∧ q ≤ 25 then .cat "18-25"
    else if 25 < q ∧ q ≤ 35 then .cat "26-35"
    else if 35 < q ∧ q ≤ 50 then .cat "36-50"
    else if 50 < q ∧ q ≤ 65 then .cat "51-65"
    else if 65 < q ∧ q ≤ 100 then .cat "65+"
    else .missing
  | none => .missing

/-- `age_group` assignment on one row. -/
def ageGroupRow (r : Row) : Row := { r with age_group := ageGroupV r.customer_age }

/-- `total_amount / quantity` on one row; rational division stands for the
float division of the source. -/
def revenueV (a q : Value) : Value :=
  match toRat? a, toRat? q with
  | some x, some y => .flt (x / y)
  | _, _ => .missing

/-- `revenue_per_item` assignment on one row. -/
def revenueRow (r : Row) : Row :=
  { r with revenue_per_item := revenueV r.total_amount r.quantity }

/-- The column flags after stage 6: the derived columns now exist. -/
def derCols (c : Cols) : Cols :=
  { c with
    order_year := c.order_date || c.order_year
    order_month := c.order_date || c.order_month
    order_day := c.order_date || c.order_day
    order_weekday := c.order_date || c.order_weekday
    order_quarter := c.order_date || c.order_quarter
    age_group := c.customer_age || c.age_group
    revenue_per_item := (c.total_amount && c.quantity) || c.revenue_per_item }

/-- Stage 6 of `clean_data` (lines 107-122): derived date parts, age
buckets, revenue per item; the corresponding column flags are set. -/
def stage6 (t : Table) : Table :=
  let r1 := if t.cols.order_date then t.rows.map datePartsRow else t.rows
  let r2 := if t.cols.customer_age then r1.map ageGroupRow else r1
  let r3 := if t.cols.total_amount && t.cols.quantity then r2.map revenueRow else r2
  { cols := derCols t.cols, rows := r3 }

/-- The six mutating stages in source order. -/
def cleanTable (t : Table) : Table :=
  stage6 (stage5 (stage4 (stage3 (stage2 (stage1 t)))))

/-- `clean_data` itself.  The two unguarded accesses of the source are the
`drop_duplicates(subset=['order_id'])` of line 44 and the final report's
`df['order_id']` / `df['order_date']` of lines 137-138; each raises
`KeyError` when its column is absent. -/
def clean_data (t : Table) : Except String Table :=
  if (stage1 t).cols.order_id then
    if (cleanTable t).cols.order_id then
      if (cleanTable t).cols.order_date then Except.ok (cleanTable t)
      else Except.error "KeyError: order_date"
    else Except.error "KeyError: order_id"
  else Except.error "KeyError: order_id"

/-- The row list on which stage 4 computes `mean` and `std`: everything up
to and including the positivity filters, before outlier removal. -/
def preOutlier (t : Table) : List Row :=
  posRows t.cols (stage3 (stage2 (stage1 t))).rows

/-- The table handed to stage 6 (the derived-column stage). -/
def beforeDerive (t : Table) : Table :=
  stage5 (stage4 (stage3 (stage2 (stage1 t))))

instance : DecidableEq (Except String Table) := fun x y =>
  match x, y with
  | .ok a, .ok b => decidable_of_iff (a = b) (by simp)
  | .error a, .error b => decidable_of_iff (a = b) (by simp)
  | .ok _, .error _ => isFalse (by simp)
  | .error _, .ok _ => isFalse (by simp)

/-! ### Per-row update functions of the pipeline, gated like the stages -/

/-- Apply `f` only when the gating flag is set. -/
def runIf (b : Bool) (f : Row → Row) (r : Row) : Row := if b then f r else r

/-- The cumulative per-row update of stage 5. -/
def stage5Row (c : Cols) (r : Row) : Row :=
  runIf c.payment_method payRow
    (runIf c.customer_gender genderRow (runIf c.product_category catRow r))

/-- The cumulative per-row update of stage 6. -/
def stage6Row (c : Cols) (r : Row) : Row :=
  runIf (c.total_amount && c.quantity) revenueRow
    (runIf c.customer_age ageGroupRow (runIf c.order_date datePartsRow r))

/-- The cumulative per-row update of the whole pipeline: every write the
pipeline performs on a surviving row, with the imputation median drawn from
the input table exactly as stage 1 draws it. -/
def rowUpdate (t : Table) (r : Row) : Row :=
  stage6Row t.cols
    (stage5Row t.cols
      (runIf t.cols.customer_phone phoneRow
        (runIf t.cols.order_date dateRow
          (runIf t.cols.product_category fillCat
            (runIf t.cols.customer_age (fillAge (medianOf (ageValues t.rows))) r)))))

/-! ### Concrete tables used by witnesses and counterexamples -/

/-- A well-formed two-row table exercising most columns. -/
def wCols : Cols :=
  { Cols.empty with
    order_id := true
    customer_id := true
    order_date := true
    total_amount := true
    quantity := true
    unit_price := true
    customer_age := true
    customer_email := true }

def wRow1 : Row :=
  { Row.blank with
    order_id := .int 1
    customer_id := .str "A"
    order_date := .str "2023-01-15"
    total_amount := .flt 100
    quantity := .int 2
    unit_price := .flt 50
    customer_age := .flt 30
    customer_email := .str "a@b.co" }

def wRow2 : Row :=
  { Row.blank with
    order_id := .int 2
    customer_id := .str "B"
    order_date := .date ⟨2023, 2, 20⟩
    total_amount := .flt 50
    quantity := .int 1
    unit_price := .flt 50
    customer_age := .flt 70
    customer_email := .str "x.y@mail.example.org" }

def wTab : Table := ⟨wCols, [wRow1, wRow2]⟩

/-- A table lacking `order_id`: `drop_duplicates(subset=['order_id'])` raises. -/
def noOrderIdT : Table :=
  ⟨{ Cols.empty with total_amount := true }, [{ Row.blank with total_amount := .flt 10 }]⟩

/-- A table with `order_id` but no `order_date`: the final report raises. -/
def noDateT : Table :=
  ⟨{ Cols.empty with order_id := true }, [{ Row.blank with order_id := .int 1 }]⟩

def baseCols : Cols :=
  { Cols.empty with order_id := true, customer_id := true, order_date := true }

def baseRow : Row :=
  { Row.blank with
    order_id := .int 1
    customer_id := .str "A"
    order_date := .date ⟨2023, 1, 15⟩ }

/-- Gender `m`: one `clean` pass yields `Male`, a second maps it to `Unknown`. -/
def exT2 : Table :=
  ⟨{ baseCols with customer_gender := true },
   [{ baseRow with customer_gender := .str "m" }]⟩

/-- Two rows with `order_id = 1`; the first is dropped in stage 1 for its
missing `customer_id`, so dedup retains the second input occurrence. -/
def exT3 : Table :=
  ⟨baseCols, [{ baseRow with customer_id := .missing }, baseRow]⟩

def mkAmt (i : Int) (a : Rat) : Row :=
  { baseRow with order_id := .int i, total_amount := .flt a }

/-- Ten amounts of 1, one 2 and one 1001: the outlier filter removes 1001
using the statistics of all twelve rows, and the surviving amount 2 then
violates the same bound recomputed over the eleven-row output. -/
def exT4 : Table :=
  ⟨{ baseCols with total_amount := true },
   [mkAmt 1 1, mkAmt 2 1, mkAmt 3 1, mkAmt 4 1, mkAmt 5 1, mkAmt 6 1, mkAmt 7 1,
    mkAmt 8 1, mkAmt 9 1, mkAmt 10 1, mkAmt 11 2, mkAmt 12 1001]⟩

/-- `customer_age = 0` lies in the claimed right-open bin `[0,25]` but the
source's right-closed `pd.cut` bins give it no label. -/
def exT8 : Table :=
  ⟨{ baseCols with customer_age := true }, [{ baseRow with customer_age := .flt 0 }]⟩

/-- A table in the fragment on which `clean` is idempotent: no
`total_amount`, no `customer_gender`, string-or-missing `product_category`. -/
def wTabB : Table :=
  ⟨{ baseCols with product_category := true },
   [{ baseRow with product_category := .str " toys " }]⟩

/-! ### Structural lemmas: columns, row-list shapes, membership -/

@[simp] theorem runIf_true (f : Row → Row) : runIf true f = f := rfl

@[simp] theorem runIf_false (f : Row → Row) : runIf false f = id := rfl

theorem map_runIf (b : Bool) (f : Row → Row) (l : List Row) :
    (if b then l.map f else l) = l.map (runIf b f) := by
  cases b <;> simp

@[simp] theorem stage1_cols (t : Table) : (stage1 t).cols = t.cols := rfl

@[simp] theorem stage2_cols (t : Table) : (stage2 t).cols = t.cols := rfl

@[simp] theorem stage3_cols (t : Table) : (stage3 t).cols = t.cols := rfl

@[simp] theorem stage4_cols (t : Table) : (stage4 t).cols = t.cols := rfl

@[simp] theorem stage5_cols (t : Table) : (stage5 t).cols = t.cols := rfl

theorem stage5_rows (u : Table) : (stage5 u).rows = u.rows.map (stage5Row u.cols) := by
  simp only [stage5]
  rw [map_runIf u.cols.product_category catRow]
  rw [map_runIf u.cols.customer_gender genderRow]
  rw [map_runIf u.cols.payment_method payRow]
  rw [List.map_map, List.map_map]
  rfl

theorem stage6_rows (u : Table) : (stage6 u).rows = u.rows.map (stage6Row u.cols) := by
  simp only [stage6]
  rw [map_runIf u.cols.order_date datePartsRow]
  rw [map_runIf u.cols.customer_age ageGroupRow]
  rw [map_runIf (u.cols.total_amount && u.cols.quantity) revenueRow]
  rw [List.map_map, List.map_map]
  rfl

theorem cleanTable_rows (t : Table) :
    (cleanTable t).rows = (beforeDerive t).rows.map (stage6Row t.cols) := by
  have h : (beforeDerive t).cols = t.cols := rfl
  rw [cleanTable, ← beforeDerive, stage6_rows, h]

theorem beforeDerive_rows (t : Table) :
    (beforeDerive t).rows =
      (stage4 (stage3 (stage2 (stage1 t)))).rows.map (stage5Row t.cols) := by
  have h : (stage4 (stage3 (stage2 (stage1 t)))).cols = t.cols := rfl
  rw [beforeDerive, stage5_rows, h]

theorem dedupGo_sublist (seen : List Value) (l : List Row) :
    (dedupGo seen l).Sublist l := by
  induction l generalizing seen with
  | nil => simp [dedupGo]
  | cons h t ih =>
    rw [dedupGo]
    split
    · exact (ih seen).cons h
    · exact (ih _).cons₂ h

theorem mem_stage1 {u : Table} {r : Row} (h : r ∈ (stage1 u).rows) :
    criticalOk u.cols r = true ∧
    ∃ r0 ∈ u.rows,
      r = runIf u.cols.product_category fillCat
            (runIf u.cols.customer_age (fillAge (medianOf (ageValues u.rows))) r0) := by
  have hs : (stage1 u).rows =
      ((u.rows.map (runIf u.cols.customer_age (fillAge (medianOf (ageValues u.rows))))).map
        (runIf u.cols.product_category fillCat)).filter (criticalOk u.cols) := by
    simp only [stage1]
    rw [map_runIf, map_runIf]
  rw [hs, List.mem_filter] at h
  refine ⟨h.2, ?_⟩
  rcases List.mem_map.1 h.1 with ⟨r1, hr1, hre⟩
  rcases List.mem_map.1 hr1 with ⟨r0, hr0, hr0e⟩
  exact ⟨r0, hr0, by rw [← hre, ← hr0e]⟩

theorem mem_stage2_rows {u : Table} {r : Row} (h : r ∈ (stage2 u).rows) :
    r ∈ u.rows :=
  (dedupGo_sublist [] u.rows).subset h

theorem mem_filterIf {b : Bool} {p : Row → Bool} {l : List Row} {r : Row}
    (h : r ∈ (if b then l.filter p else l)) :
    r ∈ l ∧ (b = true → p r = true) := by
  cases b
  · exact ⟨h, by simp⟩
  · have hh := List.mem_filter.1 h
    exact ⟨hh.1, fun _ => hh.2⟩

theorem mem_mapIf {b : Bool} {f : Row → Row} {l : List Row} {r : Row}
    (h : r ∈ (if b then l.map f else l)) :
    ∃ r0 ∈ l, r = runIf b f r0 := by
  rw [map_runIf] at h
  rcases List.mem_map.1 h with ⟨r0, h0, he⟩
  exact ⟨r0, h0, he.symm⟩

theorem runIf_pres {g : Row → Value} {f : Row → Row} (hf : ∀ x, g (f x) = g x)
    (b : Bool) (r : Row) : g (runIf b f r) = g r := by
  cases b
  · rfl
  · exact hf r

theorem mem_stage3 {u : Table} {r : Row} (h : r ∈ (stage3 u).rows) :
    (u.cols.order_date = true → notMissing r.order_date = true) ∧
    (u.cols.customer_email = true → emailOk r.customer_email = true) ∧
    ∃ r0 ∈ u.rows,
      r = runIf u.cols.customer_phone phoneRow (runIf u.cols.order_date dateRow r0) := by
  have hph_date : ∀ x : Row,
      (runIf u.cols.customer_phone phoneRow x).order_date = x.order_date :=
    @runIf_pres (fun x => x.order_date) phoneRow (fun x => rfl) u.cols.customer_phone
  have hph_email : ∀ x : Row,
      (runIf u.cols.customer_phone phoneRow x).customer_email = x.customer_email :=
    @runIf_pres (fun x => x.customer_email) phoneRow (fun x => rfl) u.cols.customer_phone
  have hs : (stage3 u).rows =
      (if u.cols.customer_phone then
        (if u.cols.customer_email then
          (if u.cols.order_date then
            (u.rows.map dateRow).filter (fun x => notMissing x.order_date)
          else u.rows).filter (fun x => emailOk x.customer_email)
        else (if u.cols.order_date then
            (u.rows.map dateRow).filter (fun x => notMissing x.order_date)
          else u.rows)).map phoneRow
      else (if u.cols.customer_email then
          (if u.cols.order_date then
            (u.rows.map dateRow).filter (fun x => notMissing x.order_date)
          else u.rows).filter (fun x => emailOk x.customer_email)
        else (if u.cols.order_date then
            (u.rows.map dateRow).filter (fun x => notMissing x.order_date)
          else u.rows))) := rfl
  rw [hs] at h
  rcases mem_mapIf h with ⟨r2, h2, he2⟩
  rcases mem_filterIf h2 with ⟨h1, hem⟩
  subst he2
  refine ⟨?_, fun hce => by rw [hph_email]; exact hem hce, ?_⟩
  · rcases hod : u.cols.order_date with _ | _
    · intro hcon
      cases hcon
    · intro _
      rw [hph_date]
      rw [hod] at h1
      exact (List.mem_filter.1 h1).2
  · rcases hod : u.cols.order_date with _ | _
    · rw [hod] at h1
      exact ⟨r2, h1, rfl⟩
    · rw [hod] at h1
      have hf := List.mem_filter.1 h1
      rcases List.mem_map.1 hf.1 with ⟨r0, h0, he0⟩
      refine ⟨r0, h0, ?_⟩
      rw [← he0]
      rfl

theorem mem_posRows {c : Cols} {rows : List Row} {r : Row}
    (h : r ∈ posRows c rows) :
    r ∈ rows ∧
    (c.quantity = true → posVal r.quantity = true) ∧
    (c.unit_price = true → posVal r.unit_price = true) ∧
    (c.total_amount = true → posVal r.total_amount = true) := by
  have hs : posRows c rows =
      (if c.total_amount then
        ((if c.unit_price then
            (if c.quantity then rows.filter (fun x => posVal x.quantity) else rows).filter
              (fun x => posVal x.unit_price)
          else (if c.quantity then rows.filter (fun x => posVal x.quantity) else rows))).filter
          (fun x => posVal x.total_amount)
      else (if c.unit_price then
            (if c.quantity then rows.filter (fun x => posVal x.quantity) else rows).filter
              (fun x => posVal x.unit_price)
          else (if c.quantity then rows.filter (fun x => posVal x.quantity) else rows))) := rfl
  rw [hs] at h
  rcases mem_filterIf h with ⟨h2, hta⟩
  rcases mem_filterIf h2 with ⟨h1, hup⟩
  rcases mem_filterIf h1 with ⟨h0, hq⟩
  exact ⟨h0, hq, hup, hta⟩

theorem mem_outlierFilter {rows : List Row} {r : Row}
    (h : r ∈ outlierFilter rows) :
    r ∈ rows ∧ outlierKeep (amountsOf rows) r = true := by
  rw [outlierFilter] at h
  split at h
  · simp at h
  · exact List.mem_filter.1 h

theorem mem_stage4 {u : Table} {r : Row} (h : r ∈ (stage4 u).rows) :
    r ∈ u.rows ∧
    (u.cols.quantity = true → posVal r.quantity = true) ∧
    (u.cols.unit_price = true → posVal r.unit_price = true) ∧
    (u.cols.total_amount = true → posVal r.total_amount = true ∧
      outlierKeep (amountsOf (posRows u.cols u.rows)) r = true) := by
  have hs : (stage4 u).rows = if u.cols.total_amount then
      outlierFilter (posRows u.cols u.rows) else posRows u.cols u.rows := rfl
  rw [hs] at h
  rcases ht : u.cols.total_amount with _ | _ <;> rw [ht] at h
  · rw [if_neg (by simp)] at h
    rcases mem_posRows h with ⟨h1, h2, h3, _⟩
    exact ⟨h1, h2, h3, by simp⟩
  · rw [if_pos rfl] at h
    rcases mem_outlierFilter h with ⟨hp, hk⟩
    rcases mem_posRows hp with ⟨h1, h2, h3, h4⟩
    exact ⟨h1, h2, h3, fun _ => ⟨h4 ht, hk⟩⟩

theorem emailOk_iff {v : Value} :
    emailOk v = true ↔ ∃ s, v = Value.str s ∧ isEmailStr s = true := by
  cases v <;> simp [emailOk]

theorem posVal_iff {v : Value} :
    posVal v = true ↔ ∃ q, toRat? v = some q ∧ 0 < q := by
  cases v <;> simp [posVal, toRat?]

theorem posVal_notMissing {v : Value} (h : posVal v = true) : notMissing v = true := by
  cases v <;> simp_all [posVal, toRat?, notMissing]

theorem outlierKeep_iff {xs : List Rat} {r : Row} :
    outlierKeep xs r = true ↔
      ∃ x, toRat? r.total_amount = some x ∧
        (x - meanQ xs) ^ 2 ≤ 9 * varQ xs := by
  unfold outlierKeep
  rcases h : toRat? r.total_amount with _ | x <;> simp [h]

theorem criticalOk_spec {c : Cols} {r : Row} (h : criticalOk c r = true) :
    (c.order_id = true → notMissing r.order_id = true) ∧
    (c.customer_id = true → notMissing r.customer_id = true) ∧
    (c.order_date = true → notMissing r.order_date = true) ∧
    (c.total_amount = true → notMissing r.total_amount = true) := by
  simp only [criticalOk, Bool.and_eq_true, Bool.or_eq_true, Bool.not_eq_true'] at h
  refine ⟨fun hc => ?_, fun hc => ?_, fun hc => ?_, fun hc => ?_⟩
  · rcases h.1.1.1 with h' | h'
    · rw [hc] at h'; cases h'
    · exact h'
  · rcases h.1.1.2 with h' | h'
    · rw [hc] at h'; cases h'
    · exact h'
  · rcases h.1.2 with h' | h'
    · rw [hc] at h'; cases h'
    · exact h'
  · rcases h.2 with h' | h'
    · rw [hc] at h'; cases h'
    · exact h'

theorem stage5Row_pres {g : Row → Value}
    (h1 : ∀ x, g (catRow x) = g x) (h2 : ∀ x, g (genderRow x) = g x)
    (h3 : ∀ x, g (payRow x) = g x) (c : Cols) (r : Row) :
    g (stage5Row c r) = g r := by
  unfold stage5Row
  rw [runIf_pres h3, runIf_pres h2, runIf_pres h1]

theorem stage6Row_pres {g : Row → Value}
    (h1 : ∀ x, g (datePartsRow x) = g x) (h2 : ∀ x, g (ageGroupRow x) = g x)
    (h3 : ∀ x, g (revenueRow x) = g x) (c : Cols) (r : Row) :
    g (stage6Row c r) = g r := by
  unfold stage6Row
  rw [runIf_pres h3, runIf_pres h2, runIf_pres h1]

theorem final_order_id (c : Cols) (r : Row) :
    (stage6Row c (stage5Row c r)).order_id = r.order_id :=
  (@stage6Row_pres (fun x => x.order_id)
      (fun x => by unfold datePartsRow; split <;> rfl) (fun x => rfl) (fun x => rfl)
      c (stage5Row c r)).trans
    (@stage5Row_pres (fun x => x.order_id) (fun x => rfl) (fun x => rfl) (fun x => rfl) c r)

theorem final_customer_id (c : Cols) (r : Row) :
    (stage6Row c (stage5Row c r)).customer_id = r.customer_id :=
  (@stage6Row_pres (fun x => x.customer_id)
      (fun x => by unfold datePartsRow; split <;> rfl) (fun x => rfl) (fun x => rfl)
      c (stage5Row c r)).trans
    (@stage5Row_pres (fun x => x.customer_id) (fun x => rfl) (fun x => rfl) (fun x => rfl) c r)

theorem final_order_date (c : Cols) (r : Row) :
    (stage6Row c (stage5Row c r)).order_date = r.order_date :=
  (@stage6Row_pres (fun x => x.order_date)
      (fun x => by unfold datePartsRow; split <;> rfl) (fun x => rfl) (fun x => rfl)
      c (stage5Row c r)).trans
    (@stage5Row_pres (fun x => x.order_date) (fun x => rfl) (fun x => rfl) (fun x => rfl) c r)

theorem final_total_amount (c : Cols) (r : Row) :
    (stage6Row c (stage5Row c r)).total_amount = r.total_amount :=
  (@stage6Row_pres (fun x => x.total_amount)
      (fun x => by unfold datePartsRow; split <;> rfl) (fun x => rfl) (fun x => rfl)
      c (stage5Row c r)).trans
    (@stage5Row_pres (fun x => x.total_amount) (fun x => rfl) (fun x => rfl) (fun x => rfl) c r)

theorem final_quantity (c : Cols) (r : Row) :
    (stage6Row c (stage5Row c r)).quantity = r.quantity :=
  (@stage6Row_pres (fun x => x.quantity)
      (fun x => by unfold datePartsRow; split <;> rfl) (fun x => rfl) (fun x => rfl)
      c (stage5Row c r)).trans
    (@stage5Row_pres (fun x => x.quantity) (fun x => rfl) (fun x => rfl) (fun x => rfl) c r)

theorem final_unit_price (c : Cols) (r : Row) :
    (stage6Row c (stage5Row c r)).unit_price = r.unit_price :=
  (@stage6Row_pres (fun x => x.unit_price)
      (fun x => by unfold datePartsRow; split <;> rfl) (fun x => rfl) (fun x => rfl)
      c (stage5Row c r)).trans
    (@stage5Row_pres (fun x => x.unit_price) (fun x => rfl) (fun x => rfl) (fun x => rfl) c r)

theorem final_customer_age (c : Cols) (r : Row) :
    (stage6Row c (stage5Row c r)).customer_age = r.customer_age :=
  (@stage6Row_pres (fun x => x.customer_age)
      (fun x => by unfold datePartsRow; split <;> rfl) (fun x => rfl) (fun x => rfl)
      c (stage5Row c r)).trans
    (@stage5Row_pres (fun x => x.customer_age) (fun x => rfl) (fun x => rfl) (fun x => rfl) c r)

theorem final_customer_email (c : Cols) (r : Row) :
    (stage6Row c (stage5Row c r)).customer_email = r.customer_email :=
  (@stage6Row_pres (fun x => x.customer_email)
      (fun x => by unfold datePartsRow; split <;> rfl) (fun x => rfl) (fun x => rfl)
      c (stage5Row c r)).trans
    (@stage5Row_pres (fun x => x.customer_email) (fun x => rfl) (fun x => rfl) (fun x => rfl) c r)

theorem final_customer_phone (c : Cols) (r : Row) :
    (stage6Row c (stage5Row c r)).customer_phone = r.customer_phone :=
  (@stage6Row_pres (fun x => x.customer_phone)
      (fun x => by unfold datePartsRow; split <;> rfl) (fun x => rfl) (fun x => rfl)
      c (stage5Row c r)).trans
    (@stage5Row_pres (fun x => x.customer_phone) (fun x => rfl) (fun x => rfl) (fun x => rfl) c r)

theorem s3upd_order_id (cp od : Bool) (r : Row) :
    (runIf cp phoneRow (runIf od dateRow r)).order_id = r.order_id :=
  (@runIf_pres (fun x => x.order_id) phoneRow (fun x => rfl) cp _).trans
    (@runIf_pres (fun x => x.order_id) dateRow (fun x => rfl) od r)

theorem s3upd_customer_id (cp od : Bool) (r : Row) :
    (runIf cp phoneRow (runIf od dateRow r)).customer_id = r.customer_id :=
  (@runIf_pres (fun x => x.customer_id) phoneRow (fun x => rfl) cp _).trans
    (@runIf_pres (fun x => x.customer_id) dateRow (fun x => rfl) od r)

theorem mem_final {t : Table} {r : Row} (h : r ∈ (cleanTable t).rows) :
    ∃ r4 ∈ (stage4 (stage3 (stage2 (stage1 t)))).rows,
      r = stage6Row t.cols (stage5Row t.cols r4) := by
  rw [cleanTable_rows] at h
  rcases List.mem_map.1 h with ⟨rb, hb, he⟩
  rw [beforeDerive_rows] at hb
  rcases List.mem_map.1 hb with ⟨r4, h4, he4⟩
  refine ⟨r4, h4, ?_⟩
  rw [← he, ← he4]

theorem clean_data_eq_ok {t u : Table} :
    clean_data t = Except.ok u ↔
      t.cols.order_id = true ∧ t.cols.order_date = true ∧ u = cleanTable t := by
  have h1 : (stage1 t).cols.order_id = t.cols.order_id := rfl
  have h2 : (cleanTable t).cols.order_id = t.cols.order_id := rfl
  have h3 : (cleanTable t).cols.order_date = t.cols.order_date := rfl
  rw [clean_data, h1, h2, h3]
  rcases hb : t.cols.order_id <;> rcases hc : t.cols.order_date <;>
    simp [hb, hc, eq_comm]

/-! ### Bucketing case analysis for `pd.cut` -/

theorem ageGroupV_none {v : Value} (h : toRat? v = none) : ageGroupV v = Value.missing := by
  unfold ageGroupV
  rw [h]

theorem ageGroupV_cases {v : Value} {q : Rat} (hq : toRat? v = some q) :
    ((0 < q ∧ q ≤ 25) → ageGroupV v = Value.cat "18-25") ∧
    ((25 < q ∧ q ≤ 35) → ageGroupV v = Value.cat "26-35") ∧
    ((35 < q ∧ q ≤ 50) → ageGroupV v = Value.cat "36-50") ∧
    ((50 < q ∧ q ≤ 65) → ageGroupV v = Value.cat "51-65") ∧
    ((65 < q ∧ q ≤ 100) → ageGroupV v = Value.cat "65+") ∧
    ((q ≤ 0 ∨ 100 < q) → ageGroupV v = Value.missing) := by
  unfold ageGroupV
  rw [hq]
  dsimp only
  refine ⟨fun h => ?_, fun h => ?_, fun h => ?_, fun h => ?_, fun h => ?_, fun h => ?_⟩
  · rw [if_pos h]
  · rw [if_neg (by rintro ⟨h1, h2⟩; rcases h with ⟨h3, h4⟩; linarith), if_pos h]
  · rw [if_neg (by rintro ⟨h1, h2⟩; rcases h with ⟨h3, h4⟩; linarith),
      if_neg (by rintro ⟨h1, h2⟩; rcases h with ⟨h3, h4⟩; linarith), if_pos h]
  · rw [if_neg (by rintro ⟨h1, h2⟩; rcases h with ⟨h3, h4⟩; linarith),
      if_neg (by rintro ⟨h1, h2⟩; rcases h with ⟨h3, h4⟩; linarith),
      if_neg (by rintro ⟨h1, h2⟩; rcases h with ⟨h3, h4⟩; linarith), if_pos h]
  · rw [if_neg (by rintro ⟨h1, h2⟩; rcases h with ⟨h3, h4⟩; linarith),
      if_neg (by rintro ⟨h1, h2⟩; rcases h with ⟨h3, h4⟩; linarith),
      if_neg (by rintro ⟨h1, h2⟩; rcases h with ⟨h3, h4⟩; linarith),
      if_neg (by rintro ⟨h1, h2⟩; rcases h with ⟨h3, h4⟩; linarith), if_pos h]
  · rw [if_neg (by rintro ⟨h1, h2⟩; rcases h with h | h <;> linarith),
      if_neg (by rintro ⟨h1, h2⟩; rcases h with h | h <;> linarith),
      if_neg (by rintro ⟨h1, h2⟩; rcases h with h | h <;> linarith),
      if_neg (by rintro ⟨h1, h2⟩; rcases h with h | h <;> linarith),
      if_neg (by rintro ⟨h1, h2⟩; rcases h with h | h <;> linarith)]

theorem stage6Row_age_group {c : Cols} (hca : c.customer_age = true) (r : Row) :
    (stage6Row c r).age_group = ageGroupV r.customer_age := by
  unfold stage6Row
  rw [hca]
  rw [@runIf_pres (fun x => x.age_group) revenueRow (fun x => rfl)
    (c.total_amount && c.quantity) (runIf true ageGroupRow (runIf c.order_date datePartsRow r))]
  show ageGroupV ((runIf c.order_date datePartsRow r).customer_age) = _
  rw [@runIf_pres (fun x => x.customer_age) datePartsRow
    (fun x => by unfold datePartsRow; split <;> rfl) c.order_date r]

/-! ### Python string lemmas: `title`/`strip` idempotence -/

theorem chToNat_ofNat {n : Nat} (h : n < 55296) : (Char.ofNat n).toNat = n := by
  rw [Char.ofNat, dif_pos (Or.inl h)]
  simp [Char.ofNatAux, Char.toNat, UInt32.toNat]

theorem chIsUpper_iff (c : Char) : c.isUpper = true ↔ 65 ≤ c.toNat ∧ c.toNat ≤ 90 := by
  simp [Char.isUpper, Char.toNat, UInt32.le_def, BitVec.le_def, UInt32.toNat]

theorem chIsLower_iff (c : Char) : c.isLower = true ↔ 97 ≤ c.toNat ∧ c.toNat ≤ 122 := by
  simp [Char.isLower, Char.toNat, UInt32.le_def, BitVec.le_def, UInt32.toNat]

theorem chIsAlpha_iff (c : Char) :
    c.isAlpha = true ↔ (65 ≤ c.toNat ∧ c.toNat ≤ 90) ∨ (97 ≤ c.toNat ∧ c.toNat ≤ 122) := by
  simp [Char.isAlpha, Bool.or_eq_true, chIsUpper_iff, chIsLower_iff]

theorem toUpper_eq_of_lower {c : Char} (h : 97 ≤ c.toNat ∧ c.toNat ≤ 122) :
    (c.toUpper).toNat = c.toNat - 32 := by
  rw [Char.toUpper, if_pos h]
  exact chToNat_ofNat (by omega)

theorem toUpper_eq_self {c : Char} (h : ¬ (97 ≤ c.toNat ∧ c.toNat ≤ 122)) :
    c.toUpper = c := by
  rw [Char.toUpper, if_neg h]

theorem toLower_eq_of_upper {c : Char} (h : 65 ≤ c.toNat ∧ c.toNat ≤ 90) :
    (c.toLower).toNat = c.toNat + 32 := by
  rw [Char.toLower, if_pos h]
  exact chToNat_ofNat (by omega)

theorem toLower_eq_self {c : Char} (h : ¬ (65 ≤ c.toNat ∧ c.toNat ≤ 90)) :
    c.toLower = c := by
  rw [Char.toLower, if_neg h]

theorem isAlpha_toUpper (c : Char) : c.toUpper.isAlpha = c.isAlpha := by
  by_cases h : 97 ≤ c.toNat ∧ c.toNat ≤ 122
  · have h1 := toUpper_eq_of_lower h
    have h2 : c.isAlpha = true := chIsAlpha_iff c |>.2 (Or.inr h)
    have h3 : c.toUpper.isAlpha = true := chIsAlpha_iff _ |>.2 (Or.inl (by omega))
    rw [h2, h3]
  · rw [toUpper_eq_self h]

theorem isAlpha_toLower (c : Char) : c.toLower.isAlpha = c.isAlpha := by
  by_cases h : 65 ≤ c.toNat ∧ c.toNat ≤ 90
  · have h1 := toLower_eq_of_upper h
    have h2 : c.isAlpha = true := chIsAlpha_iff c |>.2 (Or.inl h)
    have h3 : c.toLower.isAlpha = true := chIsAlpha_iff _ |>.2 (Or.inr (by omega))
    rw [h2, h3]
  · rw [toLower_eq_self h]

theorem toUpper_toUpper (c : Char) : c.toUpper.toUpper = c.toUpper := by
  by_cases h : 97 ≤ c.toNat ∧ c.toNat ≤ 122
  · have h1 := toUpper_eq_of_lower h
    exact toUpper_eq_self (by omega)
  · rw [toUpper_eq_self h, toUpper_eq_self h]

theorem toLower_toLower (c : Char) : c.toLower.toLower = c.toLower := by
  by_cases h : 65 ≤ c.toNat ∧ c.toNat ≤ 90
  · have h1 := toLower_eq_of_upper h
    exact toLower_eq_self (by omega)
  · rw [toLower_eq_self h, toLower_eq_self h]

theorem isAlpha_adjChar (b : Bool) (c : Char) : (adjChar b c).isAlpha = c.isAlpha := by
  unfold adjChar
  by_cases h : c.isAlpha = true
  · rw [if_pos h]
    cases b
    · simp [isAlpha_toUpper]
    · simp [isAlpha_toLower]
  · rw [if_neg h]

theorem adjChar_false_alpha {c : Char} (h : c.isAlpha = true) :
    adjChar false c = c.toUpper := by
  unfold adjChar
  rw [if_pos h]
  rfl

theorem adjChar_true_alpha {c : Char} (h : c.isAlpha = true) :
    adjChar true c = c.toLower := by
  unfold adjChar
  rw [if_pos h]
  rfl

theorem adjChar_nonalpha {c : Char} (b : Bool) (h : ¬ c.isAlpha = true) :
    adjChar b c = c := by
  unfold adjChar
  rw [if_neg h]

theorem adjChar_adjChar (b : Bool) (c : Char) : adjChar b (adjChar b c) = adjChar b c := by
  by_cases h : c.isAlpha = true
  · cases b
    · rw [adjChar_false_alpha h, adjChar_false_alpha (by rw [isAlpha_toUpper]; exact h),
        toUpper_toUpper]
    · rw [adjChar_true_alpha h, adjChar_true_alpha (by rw [isAlpha_toLower]; exact h),
        toLower_toLower]
  · rw [adjChar_nonalpha b h, adjChar_nonalpha b h]

theorem titleAux_idem (l : List Char) : ∀ b, titleAux b (titleAux b l) = titleAux b l := by
  induction l with
  | nil => intro b; rfl
  | cons c cs ih =>
    intro b
    rw [titleAux, titleAux, adjChar_adjChar, isAlpha_adjChar, ih]

theorem titleAux_append (b : Bool) (l1 l2 : List Char) :
    titleAux b (l1 ++ l2) = titleAux b l1 ++ titleAux (endAlpha b l1) l2 := by
  induction l1 generalizing b with
  | nil => rfl
  | cons c cs ih => rw [List.cons_append, titleAux, ih, titleAux, endAlpha, List.cons_append]

theorem titleAux_length (b : Bool) (l : List Char) :
    (titleAux b l).length = l.length := by
  induction l generalizing b with
  | nil => rfl
  | cons c cs ih => rw [titleAux, List.length_cons, List.length_cons, ih]

theorem titleAux_fix_append {b : Bool} {x y : List Char}
    (h : titleAux b (x ++ y) = x ++ y) : titleAux b x = x := by
  rw [titleAux_append] at h
  exact (List.append_inj h (by rw [titleAux_length])).1

theorem isPySpace_not_alpha {c : Char} (h : isPySpace c = true) : c.isAlpha = false := by
  unfold isPySpace at h
  simp only [Bool.or_eq_true, beq_iff_eq] at h
  rcases h with ((((h | h) | h) | h) | h) | h <;> subst h <;> rfl

theorem titleAux_fix_dropWhile {l : List Char}
    (h : titleAux false l = l) :
    titleAux false (l.dropWhile isPySpace) = l.dropWhile isPySpace := by
  induction l with
  | nil => rfl
  | cons c cs ih =>
    rw [titleAux] at h
    have hc : adjChar false c = c := (List.cons.injEq _ _ _ _ ▸ h).1
    have hcs : titleAux c.isAlpha cs = cs := (List.cons.injEq _ _ _ _ ▸ h).2
    by_cases hsp : isPySpace c = true
    · rw [List.dropWhile_cons_of_pos hsp]
      have hna := isPySpace_not_alpha hsp
      rw [hna] at hcs
      exact ih hcs
    · rw [List.dropWhile_cons_of_neg hsp]
      rw [titleAux, hc, hcs]

theorem dropWhile_head_neg (p : Char → Bool) (l : List Char) :
    l.dropWhile p = [] ∨ ∃ c cs, l.dropWhile p = c :: cs ∧ p c = false := by
  induction l with
  | nil => exact Or.inl rfl
  | cons c cs ih =>
    by_cases h : p c = true
    · rw [List.dropWhile_cons_of_pos h]
      exact ih
    · rw [List.dropWhile_cons_of_neg h]
      exact Or.inr ⟨c, cs, rfl, by simpa using h⟩

theorem dropWhile_idem (p : Char → Bool) (l : List Char) :
    (l.dropWhile p).dropWhile p = l.dropWhile p := by
  rcases dropWhile_head_neg p l with h | ⟨c, cs, h, hneg⟩
  · rw [h]; rfl
  · rw [h, List.dropWhile_cons_of_neg (by simp [hneg])]

theorem rstrip_append (l : List Char) :
    l = rstripL l ++ (l.reverse.takeWhile isPySpace).reverse := by
  unfold rstripL
  rw [← List.reverse_append, List.takeWhile_append_dropWhile, List.reverse_reverse]

theorem titleAux_fix_rstrip {l : List Char} (h : titleAux false l = l) :
    titleAux false (rstripL l) = rstripL l := by
  have hd := rstrip_append l
  rw [hd] at h
  exact titleAux_fix_append h

theorem title_fix_strip {l : List Char} (h : titleAux false l = l) :
    titleAux false (rstripL (lstripL l)) = rstripL (lstripL l) :=
  titleAux_fix_rstrip (titleAux_fix_dropWhile h)

theorem rstrip_idem (l : List Char) : rstripL (rstripL l) = rstripL l := by
  unfold rstripL
  rw [List.reverse_reverse, dropWhile_idem]

theorem lstrip_rstrip_lstrip (l : List Char) :
    lstripL (rstripL (lstripL l)) = rstripL (lstripL l) := by
  rcases h : rstripL (lstripL l) with _ | ⟨c, cs⟩
  · rfl
  · have hpre := rstrip_append (lstripL l)
    rw [h] at hpre
    have hneg : isPySpace c = false := by
      rcases dropWhile_head_neg isPySpace l with h2 | ⟨c2, cs2, h2, hneg2⟩
      · rw [show lstripL l = l.dropWhile isPySpace from rfl, h2] at hpre
        cases hpre
      · rw [show lstripL l = l.dropWhile isPySpace from rfl, h2] at hpre
        have : c2 = c := by
          have := congrArg (fun x => x.head?) hpre
          simpa using this
        rw [← this]
        exact hneg2
    show List.dropWhile isPySpace (c :: cs) = c :: cs
    rw [List.dropWhile_cons_of_neg (by simp [hneg])]

theorem strip_list_idem (l : List Char) :
    rstripL (lstripL (rstripL (lstripL l))) = rstripL (lstripL l) := by
  rw [lstrip_rstrip_lstrip, rstrip_idem]

theorem titleStrip_idem (s : String) :
    pyStrip (pyTitle (pyStrip (pyTitle s))) = pyStrip (pyTitle s) := by
  show String.mk (rstripL (lstripL (titleAux false (rstripL (lstripL (titleAux false s.data)))))) =
    String.mk (rstripL (lstripL (titleAux false s.data)))
  rw [title_fix_strip (titleAux_idem s.data false), strip_list_idem]

/-! ### Fixpoint lemmas for the second pass of every per-row update -/

theorem runIf_fix {b : Bool} {f : Row → Row} {r : Row} (hf : f r = r) :
    runIf b f r = r := by
  cases b
  · rfl
  · exact hf

theorem titleStripV_idem (v : Value) : titleStripV (titleStripV v) = titleStripV v := by
  cases v <;> simp [titleStripV, titleStrip_idem]

theorem filterDigits_idem (s : String) :
    filterDigits (filterDigits s) = filterDigits s := by
  show String.mk ((s.data.filter Char.isDigit).filter Char.isDigit) = _
  rw [List.filter_filter]
  exact congrArg String.mk (List.filter_congr (fun a _ => Bool.and_self _))

theorem phoneNorm_idem (v : Value) : phoneNorm (phoneNorm v) = phoneNorm v := by
  unfold phoneNorm
  by_cases h : filterDigits (pyStr v) = ""
  · rw [if_pos h]
    rfl
  · rw [if_neg h]
    show (if filterDigits (pyStr (Value.str (filterDigits (pyStr v)))) = ""
          then Value.missing
          else Value.str (filterDigits (pyStr (Value.str (filterDigits (pyStr v)))))) = _
    have he : pyStr (Value.str (filterDigits (pyStr v))) = filterDigits (pyStr v) := rfl
    rw [he, filterDigits_idem, if_neg h]

theorem fillAge_none (r : Row) : fillAge none r = r := rfl

theorem fillAge_fix {m? : Option Rat} {r : Row} (h : ¬ r.customer_age = Value.missing) :
    fillAge m? r = r := by
  unfold fillAge
  cases m?
  · rfl
  · dsimp only
    rw [if_neg h]

theorem fillAge_some_notMissing (m : Rat) (r : Row) :
    ¬ (fillAge (some m) r).customer_age = Value.missing := by
  unfold fillAge
  dsimp only
  by_cases h : r.customer_age = Value.missing
  · rw [if_pos h]
    intro hc
    cases hc
  · rw [if_neg h]
    exact h

theorem fillCat_fix {r : Row} (h : ¬ r.product_category = Value.missing) :
    fillCat r = r := by
  unfold fillCat
  rw [if_neg h]

theorem dateRow_fix {r : Row} {d : Date} (h : r.order_date = Value.date d) :
    dateRow r = r := by
  unfold dateRow
  rw [h]
  show ({ r with order_date := Value.date d } : Row) = r
  rw [← h]

theorem dateRow_shape (r : Row) :
    (dateRow r).order_date = Value.missing ∨
      ∃ d, (dateRow r).order_date = Value.date d := by
  unfold dateRow
  rcases hp : parseDate r.order_date with _ | d
  · exact Or.inl rfl
  · exact Or.inr ⟨d, rfl⟩

theorem stage5Row_category {c : Cols} (hpc : c.product_category = true) (x : Row) :
    (stage5Row c x).product_category = titleStripV x.product_category := by
  unfold stage5Row
  rw [@runIf_pres (fun y => y.product_category) payRow (fun y => rfl) c.payment_method _,
    @runIf_pres (fun y => y.product_category) genderRow (fun y => rfl) c.customer_gender _,
    hpc]
  rfl

theorem stage5Row_payment {c : Cols} (hpm : c.payment_method = true) (x : Row) :
    (stage5Row c x).payment_method = titleStripV x.payment_method := by
  unfold stage5Row
  rw [hpm]
  show titleStripV ((runIf c.customer_gender genderRow
    (runIf c.product_category catRow x)).payment_method) = _
  rw [@runIf_pres (fun y => y.payment_method) genderRow (fun y => rfl) _ _,
    @runIf_pres (fun y => y.payment_method) catRow (fun y => rfl) _ _]

theorem s6_product_category (c : Cols) (x : Row) :
    (stage6Row c x).product_category = x.product_category :=
  @stage6Row_pres (fun y => y.product_category)
    (fun y => by unfold datePartsRow; split <;> rfl) (fun y => rfl) (fun y => rfl) c x

theorem s6_payment_method (c : Cols) (x : Row) :
    (stage6Row c x).payment_method = x.payment_method :=
  @stage6Row_pres (fun y => y.payment_method)
    (fun y => by unfold datePartsRow; split <;> rfl) (fun y => rfl) (fun y => rfl) c x

theorem s6_order_date (c : Cols) (x : Row) :
    (stage6Row c x).order_date = x.order_date :=
  @stage6Row_pres (fun y => y.order_date)
    (fun y => by unfold datePartsRow; split <;> rfl) (fun y => rfl) (fun y => rfl) c x

theorem s3upd_customer_age (cp od : Bool) (r : Row) :
    (runIf cp phoneRow (runIf od dateRow r)).customer_age = r.customer_age :=
  (@runIf_pres (fun x => x.customer_age) phoneRow (fun x => rfl) cp _).trans
    (@runIf_pres (fun x => x.customer_age) dateRow (fun x => rfl) od r)

theorem s3upd_product_category (cp od : Bool) (r : Row) :
    (runIf cp phoneRow (runIf od dateRow r)).product_category = r.product_category :=
  (@runIf_pres (fun x => x.product_category) phoneRow (fun x => rfl) cp _).trans
    (@runIf_pres (fun x => x.product_category) dateRow (fun x => rfl) od r)

theorem s3upd_payment_method (cp od : Bool) (r : Row) :
    (runIf cp phoneRow (runIf od dateRow r)).payment_method = r.payment_method :=
  (@runIf_pres (fun x => x.payment_method) phoneRow (fun x => rfl) cp _).trans
    (@runIf_pres (fun x => x.payment_method) dateRow (fun x => rfl) od r)

theorem s3upd_order_date_of_flag {od : Bool} (cp : Bool) (hod : od = true) (r : Row) :
    (runIf cp phoneRow (runIf od dateRow r)).order_date = (dateRow r).order_date := by
  rw [hod]
  exact @runIf_pres (fun x => x.order_date) phoneRow (fun x => rfl) cp _

theorem s3upd_phone_of_flag {cp : Bool} (od : Bool) (hcp : cp = true) (r : Row) :
    (runIf cp phoneRow (runIf od dateRow r)).customer_phone =
      phoneNorm r.customer_phone := by
  rw [hcp]
  show phoneNorm ((runIf od dateRow r).customer_phone) = _
  rw [@runIf_pres (fun x => x.customer_phone) dateRow (fun x => rfl) od r]

theorem mem_final_full {t : Table} {r : Row} (h : r ∈ (cleanTable t).rows) :
    ∃ r2 ∈ (stage1 t).rows, ∃ r4,
      r4 = runIf t.cols.customer_phone phoneRow (runIf t.cols.order_date dateRow r2) ∧
      r = stage6Row t.cols (stage5Row t.cols r4) ∧
      (t.cols.order_date = true → notMissing r4.order_date = true) ∧
      (t.cols.customer_email = true → emailOk r4.customer_email = true) ∧
      (t.cols.quantity = true → posVal r4.quantity = true) ∧
      (t.cols.unit_price = true → posVal r4.unit_price = true) ∧
      criticalOk t.cols r2 = true ∧
      ∃ r0 ∈ t.rows, r2 = runIf t.cols.product_category fillCat
        (runIf t.cols.customer_age (fillAge (medianOf (ageValues t.rows))) r0) := by
  rcases mem_final h with ⟨r4, h4, he⟩
  rcases mem_stage4 h4 with ⟨h3mem, hq4, hu4, -⟩
  rcases mem_stage3 h3mem with ⟨hdate, hemail, r2, h2mem, he2⟩
  rcases mem_stage1 (mem_stage2_rows h2mem) with ⟨hcrit, r0, h0, he0⟩
  exact ⟨r2, mem_stage2_rows h2mem, r4, he2, he, hdate, hemail, hq4, hu4, hcrit,
    r0, h0, he0⟩

/-! ### Invariants of a cleaned table, for the idempotence analysis -/

theorem fillAge_product_category (m? : Option Rat) (x : Row) :
    (fillAge m? x).product_category = x.product_category := by
  unfold fillAge
  cases m?
  · rfl
  · dsimp only
    split <;> rfl

theorem fillCat_customer_age (x : Row) :
    (fillCat x).customer_age = x.customer_age := by
  unfold fillCat
  split <;> rfl

theorem medianOf_nil : medianOf [] = none := rfl

theorem medianOf_none {xs : List Rat} (h : medianOf xs = none) : xs = [] := by
  by_contra hne
  unfold medianOf at h
  rw [if_neg hne] at h
  dsimp only at h
  by_cases hp : xs.length % 2 = 1
  · rw [if_pos hp] at h
    cases h
  · rw [if_neg hp] at h
    cases h

theorem stage6Row_derived {c : Cols} (hod : c.order_date = true) (x : Row) {d : Date}
    (hx : x.order_date = Value.date d) :
    (stage6Row c x).order_year = Value.int d.year ∧
    (stage6Row c x).order_month = Value.int d.month ∧
    (stage6Row c x).order_day = Value.int d.day ∧
    (stage6Row c x).order_weekday = Value.str (dayNameOf d) ∧
    (stage6Row c x).order_quarter = Value.int (quarterOf d) := by
  unfold stage6Row
  rw [hod]
  refine ⟨?_, ?_, ?_, ?_, ?_⟩
  · rw [@runIf_pres (fun y => y.order_year) revenueRow (fun y => rfl) _ _,
      @runIf_pres (fun y => y.order_year) ageGroupRow (fun y => rfl) _ _]
    show (datePartsRow x).order_year = _
    unfold datePartsRow
    rw [hx]
  · rw [@runIf_pres (fun y => y.order_month) revenueRow (fun y => rfl) _ _,
      @runIf_pres (fun y => y.order_month) ageGroupRow (fun y => rfl) _ _]
    show (datePartsRow x).order_month = _
    unfold datePartsRow
    rw [hx]
  · rw [@runIf_pres (fun y => y.order_day) revenueRow (fun y => rfl) _ _,
      @runIf_pres (fun y => y.order_day) ageGroupRow (fun y => rfl) _ _]
    show (datePartsRow x).order_day = _
    unfold datePartsRow
    rw [hx]
  · rw [@runIf_pres (fun y => y.order_weekday) revenueRow (fun y => rfl) _ _,
      @runIf_pres (fun y => y.order_weekday) ageGroupRow (fun y => rfl) _ _]
    show (datePartsRow x).order_weekday = _
    unfold datePartsRow
    rw [hx]
  · rw [@runIf_pres (fun y => y.order_quarter) revenueRow (fun y => rfl) _ _,
      @runIf_pres (fun y => y.order_quarter) ageGroupRow (fun y => rfl) _ _]
    show (datePartsRow x).order_quarter = _
    unfold datePartsRow
    rw [hx]

theorem cleanInv {t : Table} (hoi : t.cols.order_id = true)
    (hod : t.cols.order_date = true)
    (hpc : t.cols.product_category = true →
      ∀ r0 ∈ t.rows, strOrMissing r0.product_category = true) :
    ∀ r ∈ (cleanTable t).rows,
      notMissing r.order_id = true ∧
      (t.cols.customer_id = true → notMissing r.customer_id = true) ∧
      (∃ d, r.order_date = Value.date d) ∧
      (t.cols.customer_email = true → emailOk r.customer_email = true) ∧
      (t.cols.customer_phone = true → phoneNorm r.customer_phone = r.customer_phone) ∧
      (t.cols.quantity = true → posVal r.quantity = true) ∧
      (t.cols.unit_price = true → posVal r.unit_price = true) ∧
      (t.cols.product_category = true →
        ¬ r.product_category = Value.missing ∧
        titleStripV r.product_category = r.product_category) ∧
      (t.cols.payment_method = true →
        titleStripV r.payment_method = r.payment_method) ∧
      (t.cols.customer_age = true → r.age_group = ageGroupV r.customer_age) ∧
      (∀ d, r.order_date = Value.date d →
        r.order_year = Value.int d.year ∧ r.order_month = Value.int d.month ∧
        r.order_day = Value.int d.day ∧ r.order_weekday = Value.str (dayNameOf d) ∧
        r.order_quarter = Value.int (quarterOf d)) := by
  intro r hr
  rcases mem_final_full hr with
    ⟨r2, h2, r4, he4, he, hdate, hemail, hq4, hu4, hcrit, r0, h0, he0⟩
  have hcs := criticalOk_spec hcrit
  subst he
  refine ⟨?_, ?_, ?_, ?_, ?_, ?_, ?_, ?_, ?_, ?_, ?_⟩
  · rw [final_order_id, he4, s3upd_order_id]
    exact hcs.1 hoi
  · intro hc
    rw [final_customer_id, he4, s3upd_customer_id]
    exact hcs.2.1 hc
  · have h1 : (stage6Row t.cols (stage5Row t.cols r4)).order_date =
        (dateRow r2).order_date := by
      rw [final_order_date, he4, s3upd_order_date_of_flag _ hod]
    rcases dateRow_shape r2 with hs | ⟨d, hs⟩
    · exfalso
      have hnm := hdate hod
      rw [he4, s3upd_order_date_of_flag _ hod, hs] at hnm
      cases hnm
    · exact ⟨d, by rw [h1, hs]⟩
  · intro hc
    rw [final_customer_email]
    exact hemail hc
  · intro hc
    have hp : (stage6Row t.cols (stage5Row t.cols r4)).customer_phone =
        phoneNorm r2.customer_phone := by
      rw [final_customer_phone, he4, s3upd_phone_of_flag _ hc]
    rw [hp, phoneNorm_idem]
  · intro hc
    rw [final_quantity]
    exact hq4 hc
  · intro hc
    rw [final_unit_price]
    exact hu4 hc
  · intro hc
    have h2cat : ∃ s0, r2.product_category = Value.str s0 := by
      have hage : (runIf t.cols.customer_age
          (fillAge (medianOf (ageValues t.rows))) r0).product_category =
          r0.product_category :=
        @runIf_pres (fun x => x.product_category) _
          (fun x => fillAge_product_category _ x) _ _
      have hsm := hpc hc r0 h0
      rw [he0, hc]
      show ∃ s0, (fillCat (runIf t.cols.customer_age
        (fillAge (medianOf (ageValues t.rows))) r0)).product_category = Value.str s0
      rcases hv : r0.product_category with n | q | sv | dv | cv | _
      · rw [hv] at hsm
        simp [strOrMissing] at hsm
      · rw [hv] at hsm
        simp [strOrMissing] at hsm
      · refine ⟨sv, ?_⟩
        unfold fillCat
        rw [if_neg (by rw [hage, hv]; intro hx; cases hx), hage, hv]
      · rw [hv] at hsm
        simp [strOrMissing] at hsm
      · rw [hv] at hsm
        simp [strOrMissing] at hsm
      · refine ⟨"Unknown", ?_⟩
        unfold fillCat
        rw [if_pos (by rw [hage, hv])]
    rcases h2cat with ⟨s0, hs0⟩
    have hrcat : (stage6Row t.cols (stage5Row t.cols r4)).product_category =
        Value.str (pyStrip (pyTitle s0)) := by
      rw [s6_product_category, stage5Row_category hc, he4, s3upd_product_category, hs0]
      rfl
    constructor
    · rw [hrcat]
      intro hx
      cases hx
    · rw [hrcat]
      show Value.str (pyStrip (pyTitle (pyStrip (pyTitle s0)))) = _
      rw [titleStrip_idem]
  · intro hc
    have hp : (stage6Row t.cols (stage5Row t.cols r4)).payment_method =
        titleStripV r4.payment_method := by
      rw [s6_payment_method, stage5Row_payment hc]
    rw [hp, titleStripV_idem]
  · intro hc
    rw [stage6Row_age_group hc, final_customer_age,
      @stage5Row_pres (fun x => x.customer_age) (fun x => rfl) (fun x => rfl)
        (fun x => rfl) t.cols r4]
  · intro d hd
    rw [s6_order_date] at hd
    exact stage6Row_derived hod (stage5Row t.cols r4) hd

theorem cleanAgeFix {t : Table} (hca : t.cols.customer_age = true) :
    ∀ r ∈ (cleanTable t).rows,
      fillAge (medianOf (ageValues (cleanTable t).rows)) r = r := by
  rcases hm : medianOf (ageValues t.rows) with _ | m
  · have hemp : ageValues t.rows = [] := medianOf_none hm
    have hages : ∀ r0 ∈ t.rows, toRat? r0.customer_age = none := by
      intro r0 h0
      rcases hopt : toRat? r0.customer_age with _ | q
      · rfl
      · exfalso
        have hmem : q ∈ ageValues t.rows := List.mem_filterMap.2 ⟨r0, h0, hopt⟩
        rw [hemp] at hmem
        cases hmem
    have hu : ∀ r ∈ (cleanTable t).rows, toRat? r.customer_age = none := by
      intro r hr
      rcases mem_final_full hr with
        ⟨r2, h2, r4, he4, he, -, -, -, -, -, r0, h0, he0⟩
      have hage : r.customer_age = r0.customer_age := by
        rw [he, final_customer_age, he4, s3upd_customer_age, he0, hm]
        rw [@runIf_pres (fun x => x.customer_age) fillCat
          (fun x => fillCat_customer_age x) _ _]
        exact @runIf_pres (fun x => x.customer_age) (fillAge none) (fun x => rfl) _ r0
      exact hage ▸ hages r0 h0
    have hequ : ageValues (cleanTable t).rows = [] :=
      List.filterMap_eq_nil_iff.2 hu
    intro r hr
    rw [hequ, medianOf_nil]
    rfl
  · intro r hr
    rcases mem_final_full hr with
      ⟨r2, h2, r4, he4, he, -, -, -, -, -, r0, h0, he0⟩
    apply fillAge_fix
    have hage : r.customer_age = r2.customer_age := by
      rw [he, final_customer_age, he4, s3upd_customer_age]
    rw [hage, he0, hca, hm]
    show ¬ (runIf t.cols.product_category fillCat
      (fillAge (some m) r0)).customer_age = Value.missing
    rw [@runIf_pres (fun x => x.customer_age) fillCat
      (fun x => fillCat_customer_age x) _ _]
    exact fillAge_some_notMissing m r0

/-! ### Sublist structure of the pipeline (stages filter or rewrite in place) -/

theorem stage1_rows_shape (t : Table) : (stage1 t).rows =
    ((t.rows.map (runIf t.cols.customer_age (fillAge (medianOf (ageValues t.rows))))).map
      (runIf t.cols.product_category fillCat)).filter (criticalOk t.cols) := by
  simp only [stage1]
  rw [map_runIf, map_runIf]

theorem stage3_rows_shape (u : Table) : (stage3 u).rows =
    (((u.rows.map (runIf u.cols.order_date dateRow)).filter
        (fun r => !u.cols.order_date || notMissing r.order_date)).filter
      (fun r => !u.cols.customer_email || emailOk r.customer_email)).map
      (runIf u.cols.customer_phone phoneRow) := by
  rcases hod : u.cols.order_date <;> rcases hem : u.cols.customer_email <;>
    rcases hph : u.cols.customer_phone <;>
    simp [stage3, hod, hem, hph, List.map_id, List.filter_true]

theorem posRows_sub (c : Cols) (rows : List Row) : (posRows c rows).Sublist rows := by
  have hif : ∀ (b : Bool) (p : Row → Bool) (l : List Row),
      (if b then List.filter p l else l).Sublist l := by
    intro b p l
    cases b
    · exact List.Sublist.refl l
    · exact List.filter_sublist l
  exact (hif _ _ _).trans ((hif _ _ _).trans (hif _ _ _))

theorem outlierFilter_sub (rows : List Row) : (outlierFilter rows).Sublist rows := by
  show (if (amountsOf rows).length ≤ 1 then []
        else rows.filter (outlierKeep (amountsOf rows))).Sublist rows
  split
  · exact List.nil_sublist rows
  · exact List.filter_sublist rows

theorem stage4_rows_sub (u : Table) : (stage4 u).rows.Sublist u.rows := by
  show (if u.cols.total_amount then outlierFilter (posRows u.cols u.rows)
        else posRows u.cols u.rows).Sublist u.rows
  split
  · exact (outlierFilter_sub _).trans (posRows_sub _ _)
  · exact posRows_sub _ _

theorem stage1_rows_sub (t : Table) : (stage1 t).rows.Sublist
    (t.rows.map (fun r => runIf t.cols.product_category fillCat
      (runIf t.cols.customer_age (fillAge (medianOf (ageValues t.rows))) r))) := by
  rw [stage1_rows_shape, List.map_map]
  exact List.filter_sublist _

theorem stage3_rows_sub (u : Table) : (stage3 u).rows.Sublist
    (u.rows.map (fun r => runIf u.cols.customer_phone phoneRow
      (runIf u.cols.order_date dateRow r))) := by
  rw [stage3_rows_shape]
  have hsub : (((u.rows.map (runIf u.cols.order_date dateRow)).filter
        (fun r => !u.cols.order_date || notMissing r.order_date)).filter
      (fun r => !u.cols.customer_email || emailOk r.customer_email)).Sublist
      (u.rows.map (runIf u.cols.order_date dateRow)) :=
    (List.filter_sublist _).trans (List.filter_sublist _)
  have := hsub.map (runIf u.cols.customer_phone phoneRow)
  rw [List.map_map] at this
  exact this

/-! ### Duplicate removal: keeps the first occurrence, output keys distinct -/

theorem dedupGo_spec (seen : List Value) (l : List Row) :
    ∀ r ∈ dedupGo seen l, r.order_id ∉ seen ∧
      List.find? (fun x => decide (x.order_id = r.order_id)) l = some r := by
  induction l generalizing seen with
  | nil =>
    intro r hr
    simp [dedupGo] at hr
  | cons h t ih =>
    intro r hr
    by_cases hmem : h.order_id ∈ seen
    · rw [dedupGo, if_pos hmem] at hr
      rcases ih seen r hr with ⟨hnot, hfind⟩
      have hne : ¬ (h.order_id = r.order_id) := fun he => hnot (he ▸ hmem)
      refine ⟨hnot, ?_⟩
      rw [List.find?_cons_of_neg _ (by simpa using hne)]
      exact hfind
    · rw [dedupGo, if_neg hmem] at hr
      rcases List.mem_cons.1 hr with rfl | hr2
      · refine ⟨hmem, ?_⟩
        rw [List.find?_cons_of_pos _ (by simp)]
      · rcases ih (h.order_id :: seen) r hr2 with ⟨hnot, hfind⟩
        have hne : ¬ (h.order_id = r.order_id) :=
          fun he => hnot (he ▸ List.mem_cons_self _ _)
        refine ⟨fun hs => hnot (List.mem_cons_of_mem _ hs), ?_⟩
        rw [List.find?_cons_of_neg _ (by simpa using hne)]
        exact hfind

theorem dedupGo_keys_nodup (seen : List Value) (l : List Row) :
    ((dedupGo seen l).map (fun r => r.order_id)).Nodup := by
  induction l generalizing seen with
  | nil => simp [dedupGo]
  | cons h t ih =>
    rw [dedupGo]
    split
    · exact ih seen
    · rw [List.map_cons]
      refine List.nodup_cons.2 ⟨?_, ih _⟩
      intro hmem
      rcases List.mem_map.1 hmem with ⟨r, hr, hk⟩
      have := (dedupGo_spec _ _ r hr).1
      exact this (hk ▸ List.mem_cons_self _ _)

theorem keys_map_pres {f : Row → Row} (hf : ∀ x, (f x).order_id = x.order_id)
    (l : List Row) :
    (l.map f).map (fun r => r.order_id) = l.map (fun r => r.order_id) := by
  rw [List.map_map]
  exact List.map_congr_left (fun a _ => hf a)

theorem stage5Row_key (c : Cols) (x : Row) :
    (stage5Row c x).order_id = x.order_id :=
  @stage5Row_pres (fun x => x.order_id) (fun x => rfl) (fun x => rfl) (fun x => rfl) c x

theorem stage6Row_key (c : Cols) (x : Row) :
    (stage6Row c x).order_id = x.order_id :=
  @stage6Row_pres (fun x => x.order_id)
    (fun x => by unfold datePartsRow; split <;> rfl) (fun x => rfl) (fun x => rfl) c x

theorem keys_final_sub (t : Table) :
    ((cleanTable t).rows.map (fun r => r.order_id)).Sublist
      ((stage2 (stage1 t)).rows.map (fun r => r.order_id)) := by
  have e : (cleanTable t).rows.map (fun r => r.order_id) =
      (stage4 (stage3 (stage2 (stage1 t)))).rows.map (fun r => r.order_id) := by
    rw [cleanTable_rows, keys_map_pres (stage6Row_key t.cols), beforeDerive_rows,
      keys_map_pres (stage5Row_key t.cols)]
  rw [e]
  have h4 := (stage4_rows_sub (stage3 (stage2 (stage1 t)))).map
    (fun r : Row => r.order_id)
  have h3 : ((stage3 (stage2 (stage1 t))).rows.map (fun r : Row => r.order_id)).Sublist
      ((stage2 (stage1 t)).rows.map (fun r => r.order_id)) := by
    have hsub := (stage3_rows_sub (stage2 (stage1 t))).map (fun r : Row => r.order_id)
    rw [keys_map_pres (fun x => s3upd_order_id _ _ x)] at hsub
    exact hsub
  exact h4.trans h3

/-! ### Second-pass stage fixpoints and the idempotence analysis -/

theorem Table.ext' : ∀ {a b : Table}, a.cols = b.cols → a.rows = b.rows → a = b
  | ⟨_, _⟩, ⟨_, _⟩, rfl, rfl => rfl

theorem map_fix {l : List Row} {f : Row → Row} (h : ∀ r ∈ l, f r = r) :
    l.map f = l := by
  induction l with
  | nil => rfl
  | cons a tl ih =>
    rw [List.map_cons, h a (List.mem_cons_self _ _),
      ih (fun r hr => h r (List.mem_cons_of_mem _ hr))]

theorem dedupGo_eq_self {seen : List Value} {l : List Row}
    (hn : (l.map (fun r => r.order_id)).Nodup)
    (hdisj : ∀ r ∈ l, r.order_id ∉ seen) : dedupGo seen l = l := by
  induction l generalizing seen with
  | nil => rfl
  | cons h tl ih =>
    rw [dedupGo, if_neg (hdisj h (List.mem_cons_self _ _))]
    congr 1
    apply ih (List.nodup_cons.1 hn).2
    intro r hr hmem
    rcases List.mem_cons.1 hmem with he | hseen
    · exact (List.nodup_cons.1 hn).1 (List.mem_map.2 ⟨r, hr, he⟩)
    · exact hdisj r (List.mem_cons_of_mem _ hr) hseen

theorem phoneRow_fix {r : Row} (h : phoneNorm r.customer_phone = r.customer_phone) :
    phoneRow r = r := by
  unfold phoneRow
  rw [h]

theorem catRow_fix {r : Row} (h : titleStripV r.product_category = r.product_category) :
    catRow r = r := by
  unfold catRow
  rw [h]

theorem payRow_fix {r : Row} (h : titleStripV r.payment_method = r.payment_method) :
    payRow r = r := by
  unfold payRow
  rw [h]

theorem ageGroupRow_fix {r : Row} (h : r.age_group = ageGroupV r.customer_age) :
    ageGroupRow r = r := by
  unfold ageGroupRow
  rw [← h]

theorem datePartsRow_fix {r : Row} {d : Date} (hd : r.order_date = Value.date d)
    (hder : r.order_year = Value.int d.year ∧ r.order_month = Value.int d.month ∧
      r.order_day = Value.int d.day ∧ r.order_weekday = Value.str (dayNameOf d) ∧
      r.order_quarter = Value.int (quarterOf d)) :
    datePartsRow r = r := by
  unfold datePartsRow
  rw [hd]
  dsimp only
  rcases hder with ⟨h1, h2, h3, h4, h5⟩
  rw [← h1, ← h2, ← h3, ← h4, ← h5, ← hd]

theorem derCols_idem (c : Cols) : derCols (derCols c) = derCols c := by
  have horr : ∀ a b : Bool, (a || (a || b)) = (a || b) := by decide
  cases c
  simp only [derCols]
  congr 1 <;> apply horr

theorem posRows_fix {c : Cols} {rows : List Row} (hta : c.total_amount = false)
    (hq : c.quantity = true → ∀ r ∈ rows, posVal r.quantity = true)
    (hu : c.unit_price = true → ∀ r ∈ rows, posVal r.unit_price = true) :
    posRows c rows = rows := by
  have hs : posRows c rows =
      (if c.total_amount then
        ((if c.unit_price then
            (if c.quantity then rows.filter (fun x => posVal x.quantity) else rows).filter
              (fun x => posVal x.unit_price)
          else (if c.quantity then rows.filter (fun x => posVal x.quantity) else rows))).filter
          (fun x => posVal x.total_amount)
      else (if c.unit_price then
            (if c.quantity then rows.filter (fun x => posVal x.quantity) else rows).filter
              (fun x => posVal x.unit_price)
          else (if c.quantity then rows.filter (fun x => posVal x.quantity) else rows))) := rfl
  rw [hs, hta]
  have e1 : (if c.quantity then rows.filter (fun x => posVal x.quantity) else rows)
      = rows := by
    rcases hcq : c.quantity with _ | _
    · rfl
    · exact List.filter_eq_self.2 (hq hcq)
  rw [e1]
  have e2 : (if c.unit_price then rows.filter (fun x => posVal x.unit_price) else rows)
      = rows := by
    rcases hcu : c.unit_price with _ | _
    · rfl
    · exact List.filter_eq_self.2 (hu hcu)
  rw [e2]
  rfl

theorem cleanTable_fix {t : Table} (hoi : t.cols.order_id = true)
    (hod : t.cols.order_date = true) (hta : t.cols.total_amount = false)
    (hg : t.cols.customer_gender = false)
    (hpc : t.cols.product_category = true →
      ∀ r0 ∈ t.rows, strOrMissing r0.product_category = true) :
    cleanTable (cleanTable t) = cleanTable t := by
  have hInv := cleanInv hoi hod hpc
  have h1 : stage1 (cleanTable t) = cleanTable t := by
    refine Table.ext' rfl ?_
    rw [stage1_rows_shape]
    have e1 : (cleanTable t).rows.map (runIf (cleanTable t).cols.customer_age
        (fillAge (medianOf (ageValues (cleanTable t).rows)))) = (cleanTable t).rows := by
      have hfl : (cleanTable t).cols.customer_age = t.cols.customer_age := rfl
      rw [hfl]
      rcases hca : t.cols.customer_age with _ | _
      · simp
      · simp only [runIf_true]
        exact map_fix (cleanAgeFix hca)
    rw [e1]
    have e2 : (cleanTable t).rows.map
        (runIf (cleanTable t).cols.product_category fillCat) = (cleanTable t).rows := by
      have hfl : (cleanTable t).cols.product_category = t.cols.product_category := rfl
      rw [hfl]
      rcases hpcf : t.cols.product_category with _ | _
      · simp
      · simp only [runIf_true]
        refine map_fix ?_
        intro r hr
        exact fillCat_fix ((hInv r hr).2.2.2.2.2.2.2.1 hpcf).1
    rw [e2]
    refine List.filter_eq_self.2 ?_
    intro r hr
    show criticalOk t.cols r = true
    simp only [criticalOk, Bool.and_eq_true, Bool.or_eq_true, Bool.not_eq_true']
    refine ⟨⟨⟨?_, ?_⟩, ?_⟩, ?_⟩
    · exact Or.inr ((hInv r hr).1)
    · rcases hci : t.cols.customer_id with _ | _
      · exact Or.inl rfl
      · exact Or.inr ((hInv r hr).2.1 hci)
    · rcases (hInv r hr).2.2.1 with ⟨d, hd⟩
      refine Or.inr ?_
      rw [hd]
      rfl
    · exact Or.inl hta
  have h2 : stage2 (cleanTable t) = cleanTable t := by
    refine Table.ext' rfl ?_
    show dedupGo [] (cleanTable t).rows = (cleanTable t).rows
    apply dedupGo_eq_self
      ((keys_final_sub t).nodup (dedupGo_keys_nodup [] (stage1 t).rows))
    intro r hr hmem
    cases hmem
  have h3 : stage3 (cleanTable t) = cleanTable t := by
    refine Table.ext' rfl ?_
    rw [stage3_rows_shape]
    have e1 : (cleanTable t).rows.map (runIf (cleanTable t).cols.order_date dateRow)
        = (cleanTable t).rows := by
      have hfl : (cleanTable t).cols.order_date = t.cols.order_date := rfl
      rw [hfl, hod]
      simp only [runIf_true]
      refine map_fix ?_
      intro r hr
      rcases (hInv r hr).2.2.1 with ⟨d, hd⟩
      exact dateRow_fix hd
    rw [e1]
    have e2 : (cleanTable t).rows.filter
        (fun r => !(cleanTable t).cols.order_date || notMissing r.order_date)
        = (cleanTable t).rows := by
      refine List.filter_eq_self.2 ?_
      intro r hr
      rcases (hInv r hr).2.2.1 with ⟨d, hd⟩
      rw [hd]
      simp [notMissing]
    rw [e2]
    have e3 : (cleanTable t).rows.filter
        (fun r => !(cleanTable t).cols.customer_email || emailOk r.customer_email)
        = (cleanTable t).rows := by
      refine List.filter_eq_self.2 ?_
      intro r hr
      have hfl : (cleanTable t).cols.customer_email = t.cols.customer_email := rfl
      rw [hfl]
      rcases hem : t.cols.customer_email with _ | _
      · rfl
      · simp only [Bool.not_true, Bool.false_or]
        exact (hInv r hr).2.2.2.1 hem
    rw [e3]
    have e4 : (cleanTable t).rows.map
        (runIf (cleanTable t).cols.customer_phone phoneRow) = (cleanTable t).rows := by
      have hfl : (cleanTable t).cols.customer_phone = t.cols.customer_phone := rfl
      rw [hfl]
      rcases hph : t.cols.customer_phone with _ | _
      · simp
      · simp only [runIf_true]
        refine map_fix ?_
        intro r hr
        exact phoneRow_fix ((hInv r hr).2.2.2.2.1 hph)
    rw [e4]
  have h4 : stage4 (cleanTable t) = cleanTable t := by
    refine Table.ext' rfl ?_
    show (if (cleanTable t).cols.total_amount then
        outlierFilter (posRows (cleanTable t).cols (cleanTable t).rows)
        else posRows (cleanTable t).cols (cleanTable t).rows) = (cleanTable t).rows
    have hfl : (cleanTable t).cols.total_amount = t.cols.total_amount := rfl
    rw [hfl, hta]
    show posRows (cleanTable t).cols (cleanTable t).rows = (cleanTable t).rows
    refine posRows_fix (hfl.trans hta) ?_ ?_
    · intro hcq r hr
      exact (hInv r hr).2.2.2.2.2.1 hcq
    · intro hcu r hr
      exact (hInv r hr).2.2.2.2.2.2.1 hcu
  have h5 : stage5 (cleanTable t) = cleanTable t := by
    refine Table.ext' rfl ?_
    rw [stage5_rows]
    refine map_fix ?_
    intro r hr
    unfold stage5Row
    have hc1 : runIf (cleanTable t).cols.product_category catRow r = r := by
      have hfl : (cleanTable t).cols.product_category = t.cols.product_category := rfl
      rw [hfl]
      rcases hp : t.cols.product_category with _ | _
      · rfl
      · simp only [runIf_true]
        exact catRow_fix ((hInv r hr).2.2.2.2.2.2.2.1 hp).2
    rw [hc1]
    have hc2 : runIf (cleanTable t).cols.customer_gender genderRow r = r := by
      have hfl : (cleanTable t).cols.customer_gender = t.cols.customer_gender := rfl
      rw [hfl, hg]
      rfl
    rw [hc2]
    have hfl : (cleanTable t).cols.payment_method = t.cols.payment_method := rfl
    rw [hfl]
    rcases hpm : t.cols.payment_method with _ | _
    · rfl
    · simp only [runIf_true]
      exact payRow_fix ((hInv r hr).2.2.2.2.2.2.2.2.1 hpm)
  have h6 : stage6 (cleanTable t) = cleanTable t := by
    refine Table.ext' ?_ ?_
    · show derCols (derCols t.cols) = derCols t.cols
      exact derCols_idem t.cols
    · rw [stage6_rows]
      refine map_fix ?_
      intro r hr
      unfold stage6Row
      have hd1 : runIf (cleanTable t).cols.order_date datePartsRow r = r := by
        have hfl : (cleanTable t).cols.order_date = t.cols.order_date := rfl
        rw [hfl, hod]
        simp only [runIf_true]
        rcases (hInv r hr).2.2.1 with ⟨d, hdate⟩
        exact datePartsRow_fix hdate
          ((hInv r hr).2.2.2.2.2.2.2.2.2.2 d hdate)
      rw [hd1]
      have hd2 : runIf (cleanTable t).cols.customer_age ageGroupRow r = r := by
        have hfl : (cleanTable t).cols.customer_age = t.cols.customer_age := rfl
        rw [hfl]
        rcases hca : t.cols.customer_age with _ | _
        · rfl
        · simp only [runIf_true]
          exact ageGroupRow_fix ((hInv r hr).2.2.2.2.2.2.2.2.2.1 hca)
      rw [hd2]
      have hfl2 : ((cleanTable t).cols.total_amount && (cleanTable t).cols.quantity)
          = false := by
        have hfl : (cleanTable t).cols.total_amount = t.cols.total_amount := rfl
        rw [hfl, hta, Bool.false_and]
      rw [hfl2]
      rfl
  show stage6 (stage5 (stage4 (stage3 (stage2 (stage1 (cleanTable t)))))) = cleanTable t
  rw [h1, h2, h3, h4, h5, h6]

/-! ### The claims -/

/-- C1: the claim states that `clean` returns a table, without raising, for
every input with zero or more recognized columns — in particular for tables
lacking `order_id` or `order_date`.  The code violates this: the unguarded
`drop_duplicates(subset=['order_id'])` of line 44 raises `KeyError` when
`order_id` is absent, and the report's `df['order_id']` / `df['order_date']`
of lines 137-138 raise when `order_date` is absent.  This theorem evaluates
the embedded `clean_data` at both failing inputs. -/
theorem C1_keyerror_on_missing_columns :
    clean_data noOrderIdT = Except.error "KeyError: order_id" ∧
    clean_data noDateT = Except.error "KeyError: order_date" := by
  constructor <;> with_unfolding_all decide

/-- C4 counterexample: on `exT4` the output of `clean` contains a row (the
amount 2) whose squared deviation from the output's own mean exceeds nine
times the output's own sample variance, so the bounded-deviation property
computed over the output set fails. -/
theorem C4_output_stats_cex :
    clean_data exT4 = Except.ok (cleanTable exT4) ∧
    ∃ r ∈ (cleanTable exT4).rows, ∃ x, toRat? r.total_amount = some x ∧
      ¬ ((x - meanQ (amountsOf (cleanTable exT4).rows)) ^ 2 ≤
          9 * varQ (amountsOf (cleanTable exT4).rows)) := by
  constructor
  · with_unfolding_all decide
  · with_unfolding_all decide

/-- C4 amended: every output row's `total_amount` deviates from the mean by
at most three standard deviations, where mean and standard deviation are the
ones the filter actually uses: computed over the rows that survive the
positivity filters, before outlier removal (`|x - m| <= 3 s` is stated
squared, `(x - m)^2 <= 9 s^2`, to stay in the rationals). -/
theorem C4_bounded_deviation_amended {t u : Table}
    (hta : t.cols.total_amount = true) (hok : clean_data t = Except.ok u) :
    ∀ r ∈ u.rows, ∃ x, toRat? r.total_amount = some x ∧
      (x - meanQ (amountsOf (preOutlier t))) ^ 2 ≤
        9 * varQ (amountsOf (preOutlier t)) := by
  rcases clean_data_eq_ok.1 hok with ⟨-, -, hu⟩
  subst hu
  intro r hr
  rcases mem_final hr with ⟨r4, h4, he⟩
  subst he
  rcases mem_stage4 h4 with ⟨-, -, -, ht4⟩
  rcases outlierKeep_iff.1 (ht4 hta).2 with ⟨x, hx, hineq⟩
  exact ⟨x, by rw [final_total_amount]; exact hx, hineq⟩

theorem C4_witness :
    wTab.cols.total_amount = true ∧
    ∀ r ∈ (cleanTable wTab).rows, ∃ x, toRat? r.total_amount = some x ∧
      (x - meanQ (amountsOf (preOutlier wTab))) ^ 2 ≤
        9 * varQ (amountsOf (preOutlier wTab)) :=
  ⟨rfl, @C4_bounded_deviation_amended wTab (cleanTable wTab) rfl
    (by with_unfolding_all decide)⟩

/-- C5: when `customer_email` is a column of the input, every output row
carries a string email matching the source's regex; the contrapositive is the
claim's first half: a row with a non-matching or missing email (the email
cell is never modified by any stage) cannot appear in the output. -/
theorem C5_email_filter {t u : Table}
    (hcol : t.cols.customer_email = true) (hok : clean_data t = Except.ok u) :
    ∀ r ∈ u.rows, ∃ s, r.customer_email = Value.str s ∧ isEmailStr s = true := by
  rcases clean_data_eq_ok.1 hok with ⟨-, -, hu⟩
  subst hu
  intro r hr
  rcases mem_final hr with ⟨r4, h4, he⟩
  subst he
  rcases mem_stage4 h4 with ⟨h3mem, -, -, -⟩
  rcases mem_stage3 h3mem with ⟨-, hemail, -⟩
  rw [final_customer_email]
  exact emailOk_iff.1 (hemail hcol)

theorem C5_witness :
    wTab.cols.customer_email = true ∧
    ∀ r ∈ (cleanTable wTab).rows, ∃ s,
      r.customer_email = Value.str s ∧ isEmailStr s = true :=
  ⟨rfl, @C5_email_filter wTab (cleanTable wTab) rfl (by with_unfolding_all decide)⟩

/-- C6: every output row is non-missing in each critical column
(`order_id`, `customer_id`, `order_date`, `total_amount`) that exists in the
input: stage 1 drops rows missing a present critical, stage 3 drops rows
whose date fails to parse, stage 4 keeps only numeric positive amounts, and
no later stage writes a missing value into these cells. -/
theorem C6_criticals_nonmissing {t u : Table} (hok : clean_data t = Except.ok u) :
    ∀ r ∈ u.rows,
      (t.cols.order_id = true → notMissing r.order_id = true) ∧
      (t.cols.customer_id = true → notMissing r.customer_id = true) ∧
      (t.cols.order_date = true → notMissing r.order_date = true) ∧
      (t.cols.total_amount = true → notMissing r.total_amount = true) := by
  rcases clean_data_eq_ok.1 hok with ⟨-, -, hu⟩
  subst hu
  intro r hr
  rcases mem_final hr with ⟨r4, h4, he⟩
  subst he
  rcases mem_stage4 h4 with ⟨h3mem, -, -, ht4⟩
  rcases mem_stage3 h3mem with ⟨hdate, -, r2, h2mem, he2⟩
  rcases mem_stage1 (mem_stage2_rows h2mem) with ⟨hcrit, -⟩
  have hcs := criticalOk_spec hcrit
  refine ⟨fun hc => ?_, fun hc => ?_, fun hc => ?_, fun hc => ?_⟩
  · rw [final_order_id, he2, s3upd_order_id]
    exact hcs.1 hc
  · rw [final_customer_id, he2, s3upd_customer_id]
    exact hcs.2.1 hc
  · rw [final_order_date]
    exact hdate hc
  · rw [final_total_amount]
    exact posVal_notMissing (ht4 hc).1

theorem C6_witness :
    clean_data wTab = Except.ok (cleanTable wTab) ∧
    ∀ r ∈ (cleanTable wTab).rows,
      (wTab.cols.order_id = true → notMissing r.order_id = true) ∧
      (wTab.cols.customer_id = true → notMissing r.customer_id = true) ∧
      (wTab.cols.order_date = true → notMissing r.order_date = true) ∧
      (wTab.cols.total_amount = true → notMissing r.total_amount = true) :=
  ⟨by with_unfolding_all decide,
    @C6_criticals_nonmissing wTab (cleanTable wTab) (by with_unfolding_all decide)⟩

/-- C7: every output row is strictly positive in each of `quantity`,
`unit_price`, `total_amount` that exists in the input (stage 4 filters on
`> 0`, and no later stage writes these cells). -/
theorem C7_positivity {t u : Table} (hok : clean_data t = Except.ok u) :
    ∀ r ∈ u.rows,
      (t.cols.quantity = true → ∃ q, toRat? r.quantity = some q ∧ 0 < q) ∧
      (t.cols.unit_price = true → ∃ q, toRat? r.unit_price = some q ∧ 0 < q) ∧
      (t.cols.total_amount = true → ∃ q, toRat? r.total_amount = some q ∧ 0 < q) := by
  rcases clean_data_eq_ok.1 hok with ⟨-, -, hu⟩
  subst hu
  intro r hr
  rcases mem_final hr with ⟨r4, h4, he⟩
  subst he
  rcases mem_stage4 h4 with ⟨-, hq4, hu4, ht4⟩
  refine ⟨fun hc => ?_, fun hc => ?_, fun hc => ?_⟩
  · rw [final_quantity]
    exact posVal_iff.1 (hq4 hc)
  · rw [final_unit_price]
    exact posVal_iff.1 (hu4 hc)
  · rw [final_total_amount]
    exact posVal_iff.1 (ht4 hc).1

theorem C7_witness :
    clean_data wTab = Except.ok (cleanTable wTab) ∧
    ∀ r ∈ (cleanTable wTab).rows,
      (wTab.cols.quantity = true → ∃ q, toRat? r.quantity = some q ∧ 0 < q) ∧
      (wTab.cols.unit_price = true → ∃ q, toRat? r.unit_price = some q ∧ 0 < q) ∧
      (wTab.cols.total_amount = true → ∃ q, toRat? r.total_amount = some q ∧ 0 < q) :=
  ⟨by with_unfolding_all decide,
    @C7_positivity wTab (cleanTable wTab) (by with_unfolding_all decide)⟩

/-- C8 counterexample: on `exT8` (a single row with `customer_age = 0`,
which the claimed right-open bin `[0,25]` labelled `18-25` would have to
bucket) the output carries `customer_age = 0` with a missing `age_group`:
`pd.cut`'s default bins are right-closed and exclude 0. -/
theorem C8_right_open_cex :
    clean_data exT8 = Except.ok (cleanTable exT8) ∧
    (∃ r ∈ (cleanTable exT8).rows, toRat? r.customer_age = some 0 ∧
      r.age_group ≠ Value.cat "18-25" ∧ r.age_group = Value.missing) := by
  constructor
  · with_unfolding_all decide
  · with_unfolding_all decide

/-- C8 amended: `age_group` is the `pd.cut` bucketing of the (possibly
imputed) `customer_age` into left-open right-closed bins `(0,25]`, `(25,35]`,
`(35,50]`, `(50,65]`, `(65,100]` labelled `18-25`, `26-35`, `36-50`, `51-65`,
`65+`; a value outside `(0,100]`, or a non-numeric one, yields a missing
`age_group`. -/
theorem C8_age_buckets_amended {t u : Table}
    (hca : t.cols.customer_age = true) (hok : clean_data t = Except.ok u) :
    ∀ r ∈ u.rows,
      r.age_group = ageGroupV r.customer_age ∧
      (toRat? r.customer_age = none → r.age_group = Value.missing) ∧
      ∀ q, toRat? r.customer_age = some q →
        ((0 < q ∧ q ≤ 25) → r.age_group = Value.cat "18-25") ∧
        ((25 < q ∧ q ≤ 35) → r.age_group = Value.cat "26-35") ∧
        ((35 < q ∧ q ≤ 50) → r.age_group = Value.cat "36-50") ∧
        ((50 < q ∧ q ≤ 65) → r.age_group = Value.cat "51-65") ∧
        ((65 < q ∧ q ≤ 100) → r.age_group = Value.cat "65+") ∧
        ((q ≤ 0 ∨ 100 < q) → r.age_group = Value.missing) := by
  rcases clean_data_eq_ok.1 hok with ⟨-, -, hu⟩
  subst hu
  intro r hr
  rcases mem_final hr with ⟨r4, h4, he⟩
  have hag : r.age_group = ageGroupV r.customer_age := by
    subst he
    rw [stage6Row_age_group hca, final_customer_age,
      @stage5Row_pres (fun x => x.customer_age) (fun x => rfl) (fun x => rfl)
        (fun x => rfl) t.cols r4]
  refine ⟨hag, fun hnone => by rw [hag]; exact ageGroupV_none hnone, fun q hq => ?_⟩
  rw [hag]
  exact ageGroupV_cases hq

theorem C8_witness :
    wTab.cols.customer_age = true ∧
    ∀ r ∈ (cleanTable wTab).rows,
      r.age_group = ageGroupV r.customer_age ∧
      (toRat? r.customer_age = none → r.age_group = Value.missing) ∧
      ∀ q, toRat? r.customer_age = some q →
        ((0 < q ∧ q ≤ 25) → r.age_group = Value.cat "18-25") ∧
        ((25 < q ∧ q ≤ 35) → r.age_group = Value.cat "26-35") ∧
        ((35 < q ∧ q ≤ 50) → r.age_group = Value.cat "36-50") ∧
        ((50 < q ∧ q ≤ 65) → r.age_group = Value.cat "51-65") ∧
        ((65 < q ∧ q ≤ 100) → r.age_group = Value.cat "65+") ∧
        ((q ≤ 0 ∨ 100 < q) → r.age_group = Value.missing) :=
  ⟨rfl, @C8_age_buckets_amended wTab (cleanTable wTab) rfl
    (by with_unfolding_all decide)⟩

/-- C9: when both `total_amount` and `quantity` are present, every row that
reaches the derived-column stage (stage 6) has a numeric, strictly positive
— in particular nonzero — `quantity`, because the stage-4 positivity filter
ran; so `revenue_per_item = total_amount / quantity` never divides by zero. -/
theorem C9_no_div_by_zero {t : Table}
    (hta : t.cols.total_amount = true) (hq : t.cols.quantity = true) :
    ∀ r ∈ (beforeDerive t).rows,
      ∃ q, toRat? r.quantity = some q ∧ 0 < q ∧ q ≠ 0 := by
  intro r hr
  rw [beforeDerive_rows] at hr
  rcases List.mem_map.1 hr with ⟨r4, h4, he⟩
  rcases mem_stage4 h4 with ⟨-, hq4, -, -⟩
  rcases posVal_iff.1 (hq4 hq) with ⟨q, hsome, hpos⟩
  refine ⟨q, ?_, hpos, ne_of_gt hpos⟩
  rw [← he, @stage5Row_pres (fun x => x.quantity) (fun x => rfl) (fun x => rfl)
    (fun x => rfl) t.cols r4]
  exact hsome

theorem C9_witness :
    wTab.cols.total_amount = true ∧ wTab.cols.quantity = true ∧
    ∀ r ∈ (beforeDerive wTab).rows,
      ∃ q, toRat? r.quantity = some q ∧ 0 < q ∧ q ≠ 0 :=
  ⟨rfl, rfl, @C9_no_div_by_zero wTab rfl rfl⟩

/-- C10: the pipeline never reorders rows: the rows of `cleanTable t` are a
subsequence, in order, of the input rows each transformed by the pipeline's
cumulative per-row update `rowUpdate t` — every stage either filters rows by
a mask or rewrites column values in place. -/
theorem C10_no_reorder (t : Table) :
    (cleanTable t).rows.Sublist (t.rows.map (rowUpdate t)) := by
  rw [cleanTable_rows, beforeDerive_rows, List.map_map]
  have h4 := (stage4_rows_sub (stage3 (stage2 (stage1 t)))).map
    (stage6Row t.cols ∘ stage5Row t.cols)
  have h3 := (stage3_rows_sub (stage2 (stage1 t))).map
    (stage6Row t.cols ∘ stage5Row t.cols)
  rw [List.map_map] at h3
  have h2 := (dedupGo_sublist [] (stage1 t).rows).map
    ((stage6Row t.cols ∘ stage5Row t.cols) ∘ fun r =>
      runIf t.cols.customer_phone phoneRow (runIf t.cols.order_date dateRow r))
  have h1 := (stage1_rows_sub t).map
    ((stage6Row t.cols ∘ stage5Row t.cols) ∘ fun r =>
      runIf t.cols.customer_phone phoneRow (runIf t.cols.order_date dateRow r))
  rw [List.map_map] at h1
  exact ((h4.trans h3).trans h2).trans h1

/-- C3 counterexample: in `exT3` two input rows share `order_id = 1`; the
first has a missing `customer_id` and is dropped by stage 1, so the retained
output row is the second input occurrence (its `customer_id` is `A`, and no
stage ever writes `customer_id`), not the first occurrence in original input
order as the claim states. -/
theorem C3_first_occurrence_cex :
    clean_data exT3 = Except.ok (cleanTable exT3) ∧
    exT3.rows.map (fun r => (r.order_id, r.customer_id)) =
      [(Value.int 1, Value.missing), (Value.int 1, Value.str "A")] ∧
    (cleanTable exT3).rows.map (fun r => (r.order_id, r.customer_id)) =
      [(Value.int 1, Value.str "A")] := by
  refine ⟨?_, ?_, ?_⟩ <;> with_unfolding_all decide

/-- C3 amended: no two output rows share an `order_id`, and each row kept by
the duplicate-removal stage is the first occurrence of its `order_id` among
the rows that survive stage 1 (the missing-critical drop) — not necessarily
among the raw input rows, since a first occurrence dropped by stage 1 lets a
later duplicate survive. -/
theorem C3_dedup_amended {t u : Table}
    (hcol : t.cols.order_id = true) (hok : clean_data t = Except.ok u) :
    (u.rows.map (fun r => r.order_id)).Nodup ∧
    ∀ r ∈ (stage2 (stage1 t)).rows,
      List.find? (fun x => decide (x.order_id = r.order_id)) (stage1 t).rows =
        some r := by
  rcases clean_data_eq_ok.1 hok with ⟨-, -, hu⟩
  subst hu
  constructor
  · exact (keys_final_sub t).nodup (dedupGo_keys_nodup [] (stage1 t).rows)
  · intro r hr
    exact (dedupGo_spec [] (stage1 t).rows r hr).2

theorem C3_witness :
    wTab.cols.order_id = true ∧
    ((cleanTable wTab).rows.map (fun r => r.order_id)).Nodup ∧
    ∀ r ∈ (stage2 (stage1 wTab)).rows,
      List.find? (fun x => decide (x.order_id = r.order_id)) (stage1 wTab).rows =
        some r :=
  ⟨rfl, @C3_dedup_amended wTab (cleanTable wTab) rfl (by with_unfolding_all decide)⟩

/-- C2 counterexample: `clean` is not idempotent.  On `exT2` the first pass
maps `customer_gender = "m"` to `Male`; `Male` is not a key of the source's
`gender_mapping`, so a second pass maps it to `Unknown` and the output
changes. -/
theorem C2_idempotence_cex :
    clean_data exT2 = Except.ok (cleanTable exT2) ∧
    clean_data (cleanTable exT2) ≠ Except.ok (cleanTable exT2) := by
  constructor
  · with_unfolding_all decide
  · with_unfolding_all decide

/-- C2 amended: `clean` is idempotent on every input table that has no
`total_amount` column (the 3-standard-deviation filter recomputes its
statistics and can remove further rows, as the C4 analysis shows), has no
`customer_gender` column (`Male`/`Female` are not keys of the gender
mapping, so a second pass rewrites them to `Unknown`), and whose
`product_category` cells are each a string or missing (the `.str` accessor
turns any other cell into `NaN`, which a second pass then fills with
`Unknown`): on such tables a second `clean` returns the first pass's output
unchanged. -/
theorem C2_idempotent_amended {t u : Table}
    (hta : t.cols.total_amount = false) (hg : t.cols.customer_gender = false)
    (hpc : t.cols.product_category = true →
      ∀ r0 ∈ t.rows, strOrMissing r0.product_category = true)
    (hok : clean_data t = Except.ok u) :
    clean_data u = Except.ok u := by
  rcases clean_data_eq_ok.1 hok with ⟨hoi, hod, hu⟩
  subst hu
  rw [clean_data_eq_ok]
  exact ⟨hoi, hod, (cleanTable_fix hoi hod hta hg hpc).symm⟩

theorem C2_witness :
    wTabB.cols.total_amount = false ∧ wTabB.cols.customer_gender = false ∧
    (wTabB.cols.product_category = true →
      ∀ r0 ∈ wTabB.rows, strOrMissing r0.product_category = true) ∧
    clean_data wTabB = Except.ok (cleanTable wTabB) ∧
    clean_data (cleanTable wTabB) = Except.ok (cleanTable wTabB) :=
  ⟨rfl, rfl, by with_unfolding_all decide, by with_unfolding_all decide,
    @C2_idempotent_amended wTabB (cleanTable wTabB) rfl rfl
      (by with_unfolding_all decide) (by with_unfolding_all decide)⟩

end ECClean
